import Mathlib

/-! # The page-sized buffer pool of `fuse/bufferpool.go`

A shallow embedding of `bufferPool` (`counters`, `getPool`, `AllocBuffer`,
`FreeBuffer`) together with the parts of the Go runtime the code leans on:
slices (`len`, `cap`, `s[:hi]`, `make`, `copy`, `append`) and `sync.Pool`
(`Get`, `Put`, `New`).

Conventions.
* A Go `int` is a 64-bit signed integer.  It is embedded as `Int`; the one
  addition the code performs on a caller-controlled value
  (`sz += pageSize`) and the product in the mint function
  (`pageSize*pageCount`) go through `wrapInt`.  Counters are embedded as
  unbounded `Int`: a counter moves by one per call.
* `/` and `%` on `int` truncate towards zero: `Int.tdiv`, `Int.tmod`.
* A run-time panic (index out of range, slice bounds out of range, negative
  `make` length) is the result `none`.  Exhaustion of memory is not modelled.
* `pageSize` is the package variable initialised once from
  `os.Getpagesize()`; it is a parameter of every operation.
* The mutex only serialises the calls; the embedding is the sequential
  semantics of one call at a time.
-/

namespace fuse

/-- Go `uint32`: the type of the `size` argument of `AllocBuffer`. -/
abbrev uint32 : Type := Fin 4294967296

/-- Two-complement wrap-around of a mathematical integer into a 64-bit `int`. -/
def wrapInt (x : Int) : Int := (x + 9223372036854775808) % 18446744073709551616 - 9223372036854775808

/-- Go `[]byte` seen through its header: the nil slice, or a base address with
a length and a capacity. -/
inductive Slice where
  | nil : Slice
  | mk (base len cap : Nat) : Slice
deriving DecidableEq, Repr

/-- Go builtin `len`. -/
def Slice.len : Slice → Nat
  | .nil => 0
  | .mk _ l _ => l

/-- Go builtin `cap`. -/
def Slice.cap : Slice → Nat
  | .nil => 0
  | .mk _ _ c => c

/-- Go slice expression `s[:hi]`; out-of-range bounds panic. -/
def Slice.upTo (s : Slice) (hi : Int) : Option Slice :=
  if 0 ≤ hi ∧ hi ≤ (s.cap : Int) then
    match s with
    | .nil => some .nil
    | .mk b _ c => some (.mk b hi.toNat c)
  else none

/-- Go `make([]byte, n)` placing the fresh array at address `addr`. -/
def makeBytes (addr : Nat) (n : Int) : Option Slice :=
  if n < 0 then none else some (.mk addr n.toNat n.toNat)

/-- Go builtin `copy(dst, src)` on `[]int`: overwrites the first
`min(len(dst), len(src))` elements of `dst`. -/
def copy (dst src : List Int) : List Int :=
  src.take (min dst.length src.length) ++ dst.drop (min dst.length src.length)

/-- A `sync.Pool` holding `[]byte` values.  `pageCount` is the variable its
`New` closure captured in `getPool`; `items` are the values put and not yet
taken. -/
structure SyncPool where
  pageCount : Int
  items : List Slice
deriving DecidableEq, Repr

/-- The scheduler- and allocator-dependent part of one `sync.Pool.Get`: which
stored item is handed out (`none`, or an index past the end: the pool is
treated as empty and `New` runs) and where a freshly made array is placed. -/
structure GetChoice where
  pick : Option Nat
  addr : Nat
deriving DecidableEq, Repr

/-- The `New` function installed by `getPool`:
`func() interface{} { return make([]byte, pageSize*pageCount) }`. -/
def SyncPool.New (pageSize : Int) (sp : SyncPool) (addr : Nat) : Option Slice :=
  makeBytes addr (wrapInt (pageSize * sp.pageCount))

/-- `sync.Pool.Get`: removes and returns an arbitrary stored item, or calls
`New`. -/
def SyncPool.Get (pageSize : Int) (sp : SyncPool) (c : GetChoice) : Option (Slice × SyncPool) :=
  match c.pick with
  | none => (sp.New pageSize c.addr).map fun b => (b, sp)
  | some i =>
    match sp.items[i]? with
    | some b => some (b, { sp with items := sp.items.eraseIdx i })
    | none => (sp.New pageSize c.addr).map fun b => (b, sp)

/-- `sync.Pool.Put`. -/
def SyncPool.Put (sp : SyncPool) (x : Slice) : SyncPool :=
  { sp with items := sp.items ++ [x] }

/-- The pool: `buffersBySize []*sync.Pool` (a nil pointer is `none`) and
`countersBySize []int`. -/
structure bufferPool where
  buffersBySize : List (Option SyncPool)
  countersBySize : List Int
deriving DecidableEq, Repr

/-- The zero value `bufferPool{}`. -/
def bufferPool.empty : bufferPool := ⟨[], []⟩

/-- `counters`: `d := make([]int, len(p.countersBySize)); copy(d, p.countersBySize); return d`.
The second component is the pool after the call. -/
def counters (p : bufferPool) : List Int × bufferPool :=
  let d := List.replicate p.countersBySize.length (0 : Int)
  (copy d p.countersBySize, p)

/-- The growth loop of `getPool`:
`for len(p.buffersBySize) <= pageCount { append nil; append 0 }`,
run for at most `n` iterations. -/
def getPool.loop (pageCount : Int) : Nat → bufferPool → bufferPool
  | 0, p => p
  | n + 1, p =>
    if (p.buffersBySize.length : Int) ≤ pageCount then
      getPool.loop pageCount n ⟨p.buffersBySize ++ [none], p.countersBySize ++ [0]⟩
    else p

/-- The growth loop of `getPool` run to its exit.  The iteration bound is the
loop's variant `pageCount + 1 - len(p.buffersBySize)`, which drops by one per
iteration; `getPool.grow_eq` shows that this is the loop itself. -/
def getPool.grow (pageCount : Int) (p : bufferPool) : bufferPool :=
  getPool.loop pageCount (pageCount + 1 - (p.buffersBySize.length : Int)).toNat p

/-- `getPool(pageCount, delta)`.  The returned `*sync.Pool` is
`p.buffersBySize[pageCount]` of the resulting pool; it is returned as the
index it lives at. -/
def getPool (p : bufferPool) (pageCount delta : Int) : Option (bufferPool × Nat) :=
  let p := getPool.grow pageCount p
  if pageCount < 0 then none else
  let k := pageCount.toNat
  match p.buffersBySize[k]? with
  | none => none
  | some slot =>
    let bs := match slot with
      | none => p.buffersBySize.set k (some ⟨pageCount, []⟩)
      | some _ => p.buffersBySize
    match p.countersBySize[k]? with
    | none => none
    | some c => some (⟨bs, p.countersBySize.set k (c + delta)⟩, k)

/-- The page count `AllocBuffer` computes from `size` (lines 54-62). -/
def AllocBuffer.pages (pageSize : Int) (size : uint32) : Int :=
  let sz : Int := (size.val : Int)
  let sz := if sz < pageSize then pageSize else sz
  let sz := if sz.tmod pageSize ≠ 0 then wrapInt (sz + pageSize) else sz
  sz.tdiv pageSize

/-- `AllocBuffer(size)`: the returned slice and the pool after the call. -/
def AllocBuffer (pageSize : Int) (p : bufferPool) (size : uint32) (c : GetChoice) :
    Option (Slice × bufferPool) :=
  match getPool p (AllocBuffer.pages pageSize size) 1 with
  | none => none
  | some (p1, k) =>
    match p1.buffersBySize[k]? with
    | some (some sp) =>
      match sp.Get pageSize c with
      | none => none
      | some (b, sp1) =>
        match b.upTo (size.val : Int) with
        | none => none
        | some r => some (r, { p1 with buffersBySize := p1.buffersBySize.set k (some sp1) })
    | _ => none

/-- `FreeBuffer(slice)`: the pool after the call. -/
def FreeBuffer (pageSize : Int) (p : bufferPool) (slice : Slice) : Option bufferPool :=
  if slice = .nil then some p
  else if (slice.cap : Int).tmod pageSize ≠ 0 ∨ slice.cap = 0 then some p
  else
    let pages := (slice.cap : Int).tdiv pageSize
    match slice.upTo (slice.cap : Int) with
    | none => none
    | some s1 =>
      match getPool p pages (-1) with
      | none => none
      | some (p1, k) =>
        match p1.buffersBySize[k]? with
        | some (some sp) =>
          some { p1 with buffersBySize := p1.buffersBySize.set k (some (sp.Put s1)) }
        | _ => none

/-- One event in the life of a pool: a call of `AllocBuffer`, a call of
`FreeBuffer`, or the runtime dropping a stored item of a `sync.Pool`
(which it may do at any time). -/
inductive Op where
  | alloc (size : uint32) (c : GetChoice) : Op
  | free (slice : Slice) : Op
  | drop (k i : Nat) : Op
deriving DecidableEq, Repr

/-- The runtime drops item `i` of the `sync.Pool` at index `k`, if there is one. -/
def dropItem (p : bufferPool) (k i : Nat) : bufferPool :=
  match p.buffersBySize[k]? with
  | some (some sp) =>
    { p with buffersBySize := p.buffersBySize.set k (some { sp with items := sp.items.eraseIdx i }) }
  | _ => p

/-- The pool after one event; `none` when the call panics. -/
def step (pageSize : Int) (p : bufferPool) : Op → Option bufferPool
  | .alloc size c => (AllocBuffer pageSize p size c).map Prod.snd
  | .free slice => FreeBuffer pageSize p slice
  | .drop k i => some (dropItem p k i)

/-- The pool after a sequence of events, oldest first. -/
def run (pageSize : Int) (p : bufferPool) : List Op → Option bufferPool
  | [] => some p
  | op :: ops =>
    match step pageSize p op with
    | none => none
    | some p1 => run pageSize p1 ops

/-- A pool state that some finite sequence of events produces from the empty pool. -/
def Reachable (pageSize : Int) (p : bufferPool) : Prop :=
  ∃ ops : List Op, run pageSize bufferPool.empty ops = some p

/-- The counter of bucket `k`, an index past the end of the sequence counting as 0. -/
def counterAt (p : bufferPool) (k : Nat) : Int := p.countersBySize.getD k 0

/-- The `sync.Pool` of bucket `k`, if the slot exists and is not nil. -/
def bucketAt (p : bufferPool) (k : Nat) : Option SyncPool := (p.buffersBySize[k]?).join

/-- The pool `p` with both sequences padded to length `k + 1` (absent buckets,
zero counters), bucket `k` set to `sp` and counter `k` set to `c`: the shape
of every state `getPool` and its two callers leave behind. -/
def withBucket (p : bufferPool) (k : Nat) (sp : SyncPool) (c : Int) : bufferPool :=
  ⟨(p.buffersBySize ++ List.replicate (k + 1 - p.buffersBySize.length) none).set k (some sp),
   (p.countersBySize ++ List.replicate (k + 1 - p.countersBySize.length) 0).set k c⟩

/-- The bucket `getPool` returns for index `k`: the one already there, or a new
empty `sync.Pool` whose `New` captured `k`. -/
def bucketOrNew (p : bufferPool) (k : Nat) : SyncPool := (bucketAt p k).getD ⟨(k : Int), []⟩

/-- The structural invariant of the pool: the two sequences have equal length,
and a bucket present at index `k` has `k ≥ 1`, mints for page count `k`, and
stores only buffers of capacity `k * pageSize` presented at full length. -/
def Inv (pageSize : Int) (p : bufferPool) : Prop :=
  p.buffersBySize.length = p.countersBySize.length ∧
  ∀ (k : Nat) (sp : SyncPool), bucketAt p k = some sp →
    sp.pageCount = (k : Int) ∧ 1 ≤ k ∧
    ∀ b ∈ sp.items, (b.cap : Int) = (k : Int) * pageSize ∧ b.len = b.cap

/-- Whether the event is a call `AllocBuffer(size)` whose page count is `k`. -/
def Op.allocsTo (pageSize : Int) (k : Nat) : Op → Bool
  | .alloc size _ => decide (AllocBuffer.pages pageSize size = (k : Int))
  | _ => false

/-- Whether the event is a call of `FreeBuffer` on a slice of capacity exactly
`k * pageSize`, with `k ≥ 1`. -/
def Op.freesFrom (pageSize : Int) (k : Nat) : Op → Bool
  | .free slice => decide (1 ≤ k ∧ (slice.cap : Int) = (k : Int) * pageSize)
  | _ => false

/-- The number of `AllocBuffer` calls in `ops` whose size maps to page count `k`. -/
def allocCount (pageSize : Int) (k : Nat) (ops : List Op) : Nat :=
  (ops.filter (Op.allocsTo pageSize k)).length

/-- The number of `FreeBuffer` calls in `ops` on slices of capacity `k * pageSize`, `k ≥ 1`. -/
def freeCount (pageSize : Int) (k : Nat) (ops : List Op) : Nat :=
  (ops.filter (Op.freesFrom pageSize k)).length

/-- Whether the arguments of the event are values of their Go types: the
capacity of a slice is an `int`, so it is below `2^63`. -/
def Op.InRange : Op → Prop
  | .free slice => (slice.cap : Int) < 9223372036854775808
  | _ => True

/-- Every bucket index times `pageSize` is a value of type `int`, so the
product in the bucket's `New` does not wrap. -/
def MintInv (pageSize : Int) (p : bufferPool) : Prop :=
  ∀ (k : Nat) (sp : SyncPool), bucketAt p k = some sp →
    (k : Int) * pageSize < 9223372036854775808

/-- What `counters()` and a test for the presence of each bucket show of a
pool: the counters sequence, and for each slot of the buckets sequence whether
it holds a bucket. -/
def observe (p : bufferPool) : List Int × List Bool :=
  (p.countersBySize, p.buffersBySize.map Option.isSome)

/-- A sequence of `getPool(pageCount, delta)` calls, one after the other (each
runs under the lock); `none` when one of them panics. -/
def getPools (p : bufferPool) : List (Int × Int) → Option bufferPool
  | [] => some p
  | (pageCount, delta) :: rest =>
    match getPool p pageCount delta with
    | none => none
    | some (p1, _) => getPools p1 rest

/-! ### The counters in memory

`counters` above returns a value, and a value cannot change later.  Whether
the Go slice that `counters()` returns is a copy or shares the array of
`p.countersBySize` is a fact about memory, so the definitions below keep the
backing arrays of `[]int` slices in an explicit memory: `make` allocates,
`copy` and an indexed assignment write in place, `append` writes in place
when the capacity allows it and allocates otherwise.  Only `countersBySize`
is kept in memory; `buffersBySize` stays a value. -/

/-- A Go `[]int` slice header: the number of its backing array, its length and
its capacity.  The code never takes a sub-slice of a `[]int`, so a header
starts at element 0 of its array.  With `cap = 0` (the nil slice among them)
`arr` means nothing. -/
structure IntSlice where
  arr : Nat
  len : Nat
  cap : Nat
deriving DecidableEq, Repr

/-- The memory of `[]int` backing arrays, by array number; an allocation adds
an array at the end. -/
abbrev IntHeap : Type := List (List Int)

/-- The array with number `a`. -/
def arrayAt (h : IntHeap) (a : Nat) : List Int := (h[a]?).getD []

/-- The elements of the slice `s`, as memory `h` holds them. -/
def IntSlice.read (s : IntSlice) (h : IntHeap) : List Int := (arrayAt h s.arr).take s.len

/-- Go index expression `s[i]` as a value; out of range panics. -/
def IntSlice.load (s : IntSlice) (h : IntHeap) (i : Nat) : Option Int :=
  if i < s.len then (arrayAt h s.arr)[i]? else none

/-- Go assignment `s[i] = v`: written into the backing array; out of range panics. -/
def IntSlice.store (s : IntSlice) (h : IntHeap) (i : Nat) (v : Int) : Option IntHeap :=
  if i < s.len then some (h.set s.arr ((arrayAt h s.arr).set i v)) else none

/-- Go `make([]int, n)`: a new zeroed array. -/
def makeInts (h : IntHeap) (n : Nat) : IntSlice × IntHeap :=
  (⟨h.length, n, n⟩, h ++ [List.replicate n 0])

/-- Go builtin `copy(dst, src)` on `[]int`, in memory: the first
`min(len(dst), len(src))` elements of `src` are written into the array of `dst`. -/
def copyInts (h : IntHeap) (dst src : IntSlice) : IntHeap :=
  h.set dst.arr
    ((src.read h).take (min dst.len src.len) ++ (arrayAt h dst.arr).drop (min dst.len src.len))

/-- Go builtin `append(s, x)` on `[]int`: within capacity the element is written
behind the slice in its own array; otherwise a new array is allocated that
holds the old elements and `x`.  `growth` is the runtime's choice of the new
capacity for a required length (taken to be at least that length). -/
def appendInt (growth : Nat → Nat) (h : IntHeap) (s : IntSlice) (x : Int) : IntSlice × IntHeap :=
  if s.len < s.cap then
    (⟨s.arr, s.len + 1, s.cap⟩, h.set s.arr ((arrayAt h s.arr).set s.len x))
  else
    (⟨h.length, s.len + 1, max (s.len + 1) (growth (s.len + 1))⟩,
      h ++ [s.read h ++ [x] ++
        List.replicate (max (s.len + 1) (growth (s.len + 1)) - (s.len + 1)) 0])

/-- The pool with `countersBySize` as a slice header into memory, and that memory. -/
structure memPool where
  buffersBySize : List (Option SyncPool)
  countersBySize : IntSlice
  heap : IntHeap
deriving DecidableEq, Repr

/-- The zero value `bufferPool{}` in an empty memory. -/
def memPool.empty : memPool := ⟨[], ⟨0, 0, 0⟩, []⟩

/-- The pool as a value: the counters read out of memory. -/
def memPool.view (m : memPool) : bufferPool :=
  ⟨m.buffersBySize, m.countersBySize.read m.heap⟩

/-- `counters` in memory:
`d := make([]int, len(p.countersBySize)); copy(d, p.countersBySize); return d`.
The result is the header `d` and the pool and memory after the call. -/
def countersMem (m : memPool) : IntSlice × memPool :=
  let r := makeInts m.heap m.countersBySize.len
  (r.1, { m with heap := copyInts r.2 r.1 m.countersBySize })

/-- The growth loop of `getPool` in memory, run for at most `n` iterations. -/
def getPoolMem.loop (growth : Nat → Nat) (pageCount : Int) : Nat → memPool → memPool
  | 0, m => m
  | n + 1, m =>
    if (m.buffersBySize.length : Int) ≤ pageCount then
      getPoolMem.loop growth pageCount n
        ⟨m.buffersBySize ++ [none], (appendInt growth m.heap m.countersBySize 0).1,
          (appendInt growth m.heap m.countersBySize 0).2⟩
    else m

/-- The growth loop of `getPool` in memory, run to its exit (same variant as
`getPool.grow`). -/
def getPoolMem.grow (growth : Nat → Nat) (pageCount : Int) (m : memPool) : memPool :=
  getPoolMem.loop growth pageCount (pageCount + 1 - (m.buffersBySize.length : Int)).toNat m

/-- `getPool(pageCount, delta)` in memory; `p.countersBySize[pageCount] += delta`
is one load and one store through the slice. -/
def getPoolMem (growth : Nat → Nat) (m : memPool) (pageCount delta : Int) :
    Option (memPool × Nat) :=
  let m := getPoolMem.grow growth pageCount m
  if pageCount < 0 then none else
  let k := pageCount.toNat
  match m.buffersBySize[k]? with
  | none => none
  | some slot =>
    let bs := match slot with
      | none => m.buffersBySize.set k (some ⟨pageCount, []⟩)
      | some _ => m.buffersBySize
    match m.countersBySize.load m.heap k with
    | none => none
    | some c =>
      match m.countersBySize.store m.heap k (c + delta) with
      | none => none
      | some h => some (⟨bs, m.countersBySize, h⟩, k)

/-- `AllocBuffer(size)` in memory. -/
def AllocBufferMem (growth : Nat → Nat) (pageSize : Int) (m : memPool) (size : uint32)
    (c : GetChoice) : Option (Slice × memPool) :=
  match getPoolMem growth m (AllocBuffer.pages pageSize size) 1 with
  | none => none
  | some (m1, k) =>
    match m1.buffersBySize[k]? with
    | some (some sp) =>
      match sp.Get pageSize c with
      | none => none
      | some (b, sp1) =>
        match b.upTo (size.val : Int) with
        | none => none
        | some r => some (r, { m1 with buffersBySize := m1.buffersBySize.set k (some sp1) })
    | _ => none

/-- `FreeBuffer(slice)` in memory. -/
def FreeBufferMem (growth : Nat → Nat) (pageSize : Int) (m : memPool) (slice : Slice) :
    Option memPool :=
  if slice = .nil then some m
  else if (slice.cap : Int).tmod pageSize ≠ 0 ∨ slice.cap = 0 then some m
  else
    let pages := (slice.cap : Int).tdiv pageSize
    match slice.upTo (slice.cap : Int) with
    | none => none
    | some s1 =>
      match getPoolMem growth m pages (-1) with
      | none => none
      | some (m1, k) =>
        match m1.buffersBySize[k]? with
        | some (some sp) =>
          some { m1 with buffersBySize := m1.buffersBySize.set k (some (sp.Put s1)) }
        | _ => none

/-- One event on the pool in memory. -/
def stepMem (growth : Nat → Nat) (pageSize : Int) (m : memPool) : Op → Option memPool
  | .alloc size c => (AllocBufferMem growth pageSize m size c).map Prod.snd
  | .free slice => FreeBufferMem growth pageSize m slice
  | .drop k i => some { m with buffersBySize := (dropItem m.view k i).buffersBySize }

/-- A sequence of events on the pool in memory, oldest first. -/
def runMem (growth : Nat → Nat) (pageSize : Int) (m : memPool) : List Op → Option memPool
  | [] => some m
  | op :: ops =>
    match stepMem growth pageSize m op with
    | none => none
    | some m1 => runMem growth pageSize m1 ops

/-- The slice header fits its array: `len ≤ cap`, and the array has `cap` elements. -/
def IntSlice.WF (s : IntSlice) (h : IntHeap) : Prop :=
  s.len ≤ s.cap ∧ (arrayAt h s.arr).length = s.cap

/-- Array `a` is allocated and is not the array behind the slice `s`. -/
def Apart (a : Nat) (s : IntSlice) (h : IntHeap) : Prop :=
  a < h.length ∧ (s.cap = 0 ∨ s.arr ≠ a)

/-- From `m` to `m1` the counters header still fits its array, and every array
apart from the counters is apart from them afterwards and has kept its
contents. -/
def Keeps (m m1 : memPool) : Prop :=
  m1.countersBySize.WF m1.heap ∧
  ∀ a, Apart a m.countersBySize m.heap →
    Apart a m1.countersBySize m1.heap ∧ arrayAt m1.heap a = arrayAt m.heap a

/-! ## Arithmetic of the page count -/

theorem wrapInt_eq_self {x : Int} (h0 : 0 ≤ x) (h1 : x < 9223372036854775808) : wrapInt x = x := by
  unfold wrapInt
  omega

/-- The value of `sz` on line 62, after the two adjustments, without wrap-around. -/
theorem AllocBuffer.pages_cases {pageSize : Int} (h0 : 0 < pageSize)
    (h1 : pageSize < 9223372036854775808) (size : uint32) :
    AllocBuffer.pages pageSize size =
      if (size.val : Int) < pageSize then 1
      else if (size.val : Int) % pageSize = 0 then (size.val : Int) / pageSize
      else (size.val : Int) / pageSize + 1 := by
  have hs : (size.val : Int) < 4294967296 := by have := size.isLt; omega
  have hn : (0 : Int) ≤ (size.val : Int) := Int.ofNat_nonneg _
  unfold AllocBuffer.pages
  by_cases hlt : (size.val : Int) < pageSize
  · simp only [hlt, if_true]
    have hm : pageSize.tmod pageSize = 0 := by
      rw [Int.tmod_eq_emod h0.le h0.le]; exact Int.emod_self
    simp only [hm, ne_eq, not_true_eq_false, if_false]
    rw [Int.tdiv_eq_ediv h0.le h0.le]
    exact Int.ediv_self h0.ne'
  · simp only [hlt, if_false]
    rw [Int.tmod_eq_emod hn h0.le]
    by_cases hm : (size.val : Int) % pageSize = 0
    · simp only [hm, ne_eq, not_true_eq_false, if_false, if_true]
      exact Int.tdiv_eq_ediv hn h0.le
    · simp only [hm, ne_eq, not_false_eq_true, if_true, if_false]
      rw [wrapInt_eq_self (by omega) (by omega), Int.tdiv_eq_ediv (by omega) h0.le]
      exact Int.add_ediv_of_dvd_right (Int.dvd_refl pageSize) |>.trans (by rw [Int.ediv_self h0.ne'])

/-- The page count is at least one, its pages hold `size` bytes, and one page
fewer would not (unless a single page is used). -/
theorem AllocBuffer.pages_spec {pageSize : Int} (h0 : 0 < pageSize)
    (h1 : pageSize < 9223372036854775808) (size : uint32) :
    1 ≤ AllocBuffer.pages pageSize size ∧
    (size.val : Int) ≤ AllocBuffer.pages pageSize size * pageSize ∧
    (AllocBuffer.pages pageSize size = 1 ∨
      (AllocBuffer.pages pageSize size - 1) * pageSize < (size.val : Int)) := by
  rw [AllocBuffer.pages_cases h0 h1]
  have hn : (0 : Int) ≤ (size.val : Int) := Int.ofNat_nonneg _
  have hdm := Int.emod_add_ediv (size.val : Int) pageSize
  have hm0 := Int.emod_nonneg (size.val : Int) h0.ne'
  have hm1 := Int.emod_lt_of_pos (size.val : Int) h0
  have hmul : ((size.val : Int) / pageSize) * pageSize = pageSize * ((size.val : Int) / pageSize) :=
    Int.mul_comm _ _
  by_cases hlt : (size.val : Int) < pageSize
  · simp only [hlt, if_true]
    exact ⟨le_refl _, by rw [Int.one_mul]; exact hlt.le, Or.inl trivial⟩
  · have hq : 1 ≤ (size.val : Int) / pageSize := by
      by_contra hq
      have hq0 : (size.val : Int) / pageSize ≤ 0 := by omega
      have := Int.mul_le_mul_of_nonneg_left hq0 h0.le
      omega
    simp only [hlt, if_false]
    by_cases hm : (size.val : Int) % pageSize = 0
    · simp only [hm, if_true]
      refine ⟨hq, by omega, Or.inr ?_⟩
      rw [Int.sub_mul]
      omega
    · simp only [hm, if_false]
      refine ⟨by omega, ?_, Or.inr ?_⟩
      · rw [Int.add_mul]; omega
      · rw [Int.add_sub_cancel]; omega

/-- The page count as the spec writes it: `max(1, ceil(size / pageSize))`, the
quotient taken in the rationals. -/
theorem AllocBuffer.pages_ceil {pageSize : Int} (h0 : 0 < pageSize)
    (h1 : pageSize < 9223372036854775808) (size : uint32) :
    AllocBuffer.pages pageSize size = max 1 ⌈((size.val : Int) : ℚ) / (pageSize : ℚ)⌉ := by
  obtain ⟨hk1, hle, hlow⟩ := AllocBuffer.pages_spec h0 h1 size
  have hP : (0 : ℚ) < (pageSize : ℚ) := by exact_mod_cast h0
  have hup : ((size.val : Int) : ℚ) / (pageSize : ℚ) ≤ (AllocBuffer.pages pageSize size : ℚ) := by
    rw [div_le_iff₀ hP]
    exact_mod_cast hle
  rcases hlow with h | h
  · rw [h] at hup ⊢
    have : ⌈((size.val : Int) : ℚ) / (pageSize : ℚ)⌉ ≤ 1 := Int.ceil_le.mpr (by exact_mod_cast hup)
    exact (max_eq_left this).symm
  · have hc : ⌈((size.val : Int) : ℚ) / (pageSize : ℚ)⌉ = AllocBuffer.pages pageSize size := by
      rw [Int.ceil_eq_iff]
      refine ⟨?_, hup⟩
      rw [lt_div_iff₀ hP]
      exact_mod_cast h
    rw [hc]
    exact (max_eq_right hk1).symm

/-- C2. For every `uint32` size and every positive 64-bit `pageSize`, the page
count computed by `AllocBuffer` is `max(1, ceil(size / pageSize))`: a size
below `pageSize` (zero included) gives one page, an exact positive multiple
`m * pageSize` gives `m` pages and no extra one, and the pages always cover
`size`, whatever its magnitude: the index is never clamped. -/
theorem AllocBuffer.pages_eq_max_one_ceil (pageSize : Int) (size : uint32)
    (h0 : 0 < pageSize) (h1 : pageSize < 9223372036854775808) :
    AllocBuffer.pages pageSize size = max 1 ⌈((size.val : Int) : ℚ) / (pageSize : ℚ)⌉ ∧
    ((size.val : Int) < pageSize → AllocBuffer.pages pageSize size = 1) ∧
    (∀ m : Int, 0 < m → (size.val : Int) = m * pageSize →
      AllocBuffer.pages pageSize size = m) ∧
    (size.val : Int) ≤ AllocBuffer.pages pageSize size * pageSize := by
  obtain ⟨_, hle, _⟩ := AllocBuffer.pages_spec h0 h1 size
  refine ⟨AllocBuffer.pages_ceil h0 h1 size, ?_, ?_, hle⟩
  · intro hlt
    rw [AllocBuffer.pages_cases h0 h1]
    simp [hlt]
  · intro m hm hs
    rw [AllocBuffer.pages_cases h0 h1]
    have hge : ¬ (size.val : Int) < pageSize := by
      rw [hs]
      have : 1 * pageSize ≤ m * pageSize := Int.mul_le_mul_of_nonneg_right (by omega) h0.le
      omega
    have hmod : (size.val : Int) % pageSize = 0 := by rw [hs]; exact Int.mul_emod_left m pageSize
    simp only [hge, if_false, hmod, if_true]
    rw [hs]
    exact Int.mul_ediv_cancel m h0.ne'

/-- C2 at `pageSize = 4096`, `size = 8192`: two pages, not three. -/
theorem AllocBuffer.pages_eq_max_one_ceil_witness :
    (0 : Int) < 4096 ∧ (4096 : Int) < 9223372036854775808 ∧
    AllocBuffer.pages 4096 8192 = 2 ∧
    AllocBuffer.pages 4096 8192 = max 1 ⌈(((8192 : uint32).val : Int) : ℚ) / ((4096 : Int) : ℚ)⌉ :=
  ⟨by decide, by decide, by decide,
    (AllocBuffer.pages_eq_max_one_ceil 4096 8192 (by decide) (by decide)).1⟩

/-! ## The growth loop and `getPool` -/

theorem set_eq_self_of_getElem? {α : Type} {l : List α} {k : Nat} {a : α}
    (h : l[k]? = some a) : l.set k a = l := by
  apply List.ext_getElem?
  intro j
  rw [List.getElem?_set]
  by_cases hj : k = j
  · subst hj
    have hk : k < l.length := (List.getElem?_eq_some.mp h).1
    simp [h, hk]
  · simp [hj]

theorem getPool.loop_eq (pageCount : Int) : ∀ (n : Nat) (p : bufferPool),
    (pageCount + 1 - (p.buffersBySize.length : Int)).toNat = n →
    getPool.loop pageCount n p =
      ⟨p.buffersBySize ++ List.replicate n none, p.countersBySize ++ List.replicate n 0⟩ := by
  intro n
  induction n with
  | zero => intro p _; simp [getPool.loop]
  | succ n ih =>
    intro p h
    have hc : (p.buffersBySize.length : Int) ≤ pageCount := by omega
    rw [getPool.loop, if_pos hc, ih]
    · simp [List.replicate_succ]
    · simp only [List.length_append, List.length_singleton]
      push_cast
      omega

/-- The loop of `getPool` in its source form: test, append to both sequences, repeat. -/
theorem getPool.grow_eq (pageCount : Int) (p : bufferPool) :
    getPool.grow pageCount p =
      if (p.buffersBySize.length : Int) ≤ pageCount then
        getPool.grow pageCount ⟨p.buffersBySize ++ [none], p.countersBySize ++ [0]⟩
      else p := by
  unfold getPool.grow
  by_cases hc : (p.buffersBySize.length : Int) ≤ pageCount
  · obtain ⟨n, hn⟩ : ∃ n, (pageCount + 1 - (p.buffersBySize.length : Int)).toNat = n + 1 :=
      ⟨(pageCount - (p.buffersBySize.length : Int)).toNat, by omega⟩
    have hn1 : (pageCount + 1 - ((p.buffersBySize ++ [none]).length : Int)).toNat = n := by
      simp only [List.length_append, List.length_singleton]
      push_cast
      omega
    simp only [if_pos hc]
    rw [hn, hn1, getPool.loop, if_pos hc]
  · have h0 : (pageCount + 1 - (p.buffersBySize.length : Int)).toNat = 0 := by omega
    rw [h0, if_neg hc]
    rfl

theorem getPool.grow_ofNat (k : Nat) (p : bufferPool) :
    getPool.grow (k : Int) p =
      ⟨p.buffersBySize ++ List.replicate (k + 1 - p.buffersBySize.length) none,
       p.countersBySize ++ List.replicate (k + 1 - p.buffersBySize.length) 0⟩ := by
  unfold getPool.grow
  rw [getPool.loop_eq _ _ _ rfl]
  have : ((k : Int) + 1 - (p.buffersBySize.length : Int)).toNat = k + 1 - p.buffersBySize.length := by
    omega
  rw [this]

/-- On a pool whose two sequences have equal length, `getPool(k, delta)` with
`k ≥ 0` does not panic; it pads both sequences to length `k + 1`, installs a
`sync.Pool` at `k` unless one is there, and adds `delta` to counter `k`. -/
theorem getPool_ofNat (p : bufferPool) (k : Nat) (delta : Int)
    (hlen : p.buffersBySize.length = p.countersBySize.length) :
    getPool p (k : Int) delta =
      some (withBucket p k (bucketOrNew p k) (counterAt p k + delta), k) := by
  unfold getPool withBucket bucketOrNew
  rw [getPool.grow_ofNat]
  have hneg : ¬ ((k : Int) < 0) := by omega
  simp only [hneg, if_false, Int.toNat_ofNat, bucketAt, counterAt, List.getD_eq_getElem?_getD]
  rw [← hlen]
  by_cases hk : k < p.buffersBySize.length
  · have hk2 : k < p.countersBySize.length := hlen ▸ hk
    have hz : k + 1 - p.buffersBySize.length = 0 := by omega
    simp only [hz, List.replicate_zero, List.append_nil]
    rw [List.getElem?_eq_getElem hk, List.getElem?_eq_getElem hk2]
    cases hb : p.buffersBySize[k] with
    | none => simp
    | some sp =>
      simp only [Option.join, Option.getD_some]
      congr 3
      exact (set_eq_self_of_getElem? (by rw [List.getElem?_eq_getElem hk, hb]; rfl)).symm
  · have hk2 : ¬ k < p.countersBySize.length := hlen ▸ hk
    have e1 : (p.buffersBySize ++ List.replicate (k + 1 - p.buffersBySize.length) none)[k]?
        = some none := by
      rw [List.getElem?_append_right (by omega), List.getElem?_replicate_of_lt (by omega)]
    have e2 : (p.countersBySize ++ List.replicate (k + 1 - p.buffersBySize.length) (0 : Int))[k]?
        = some 0 := by
      rw [List.getElem?_append_right (by omega), List.getElem?_replicate_of_lt (by omega)]
    have e3 : p.buffersBySize[k]? = none := List.getElem?_eq_none (by omega)
    have e4 : p.countersBySize[k]? = none := List.getElem?_eq_none (by omega)
    simp [e1, e2, e3, e4]

/-! ## Reading a padded-and-updated pool -/

theorem getElem?_pad_set {α : Type} (l : List α) (k j : Nat) (d a : α) :
    ((l ++ List.replicate (k + 1 - l.length) d).set k a)[j]? =
      if j = k then some a
      else if j < l.length then l[j]?
      else if j < k + 1 then some d else none := by
  have hlenk : k < (l ++ List.replicate (k + 1 - l.length) d).length := by
    simp only [List.length_append, List.length_replicate]; omega
  rw [List.getElem?_set]
  by_cases hj : j = k
  · subst hj
    simp only [if_true]
    rw [if_pos hlenk]
  · have hj2 : ¬ k = j := fun h => hj h.symm
    simp only [hj, hj2, if_false]
    by_cases hl : j < l.length
    · simp only [hl, if_true]
      exact List.getElem?_append_left hl
    · simp only [hl, if_false]
      rw [List.getElem?_append_right (by omega), List.getElem?_replicate]
      by_cases hk : j < k + 1
      · rw [if_pos (by omega), if_pos hk]
      · rw [if_neg (by omega), if_neg hk]

theorem length_pad_set {α : Type} (l : List α) (k : Nat) (d a : α) :
    ((l ++ List.replicate (k + 1 - l.length) d).set k a).length = max l.length (k + 1) := by
  simp only [List.length_set, List.length_append, List.length_replicate]
  omega

theorem counterAt_withBucket (p : bufferPool) (k : Nat) (sp : SyncPool) (c : Int) (j : Nat) :
    counterAt (withBucket p k sp c) j = if j = k then c else counterAt p j := by
  unfold counterAt withBucket
  simp only [List.getD_eq_getElem?_getD, getElem?_pad_set]
  by_cases hj : j = k
  · simp [hj]
  · simp only [hj, if_false]
    by_cases hl : j < p.countersBySize.length
    · simp [hl]
    · simp only [hl, if_false, List.getElem?_eq_none (Nat.le_of_not_lt hl)]
      by_cases hk : j < k + 1 <;> simp [hk]

theorem bucketAt_withBucket (p : bufferPool) (k : Nat) (sp : SyncPool) (c : Int) (j : Nat) :
    bucketAt (withBucket p k sp c) j = if j = k then some sp else bucketAt p j := by
  unfold bucketAt withBucket
  simp only [getElem?_pad_set]
  by_cases hj : j = k
  · simp [hj]
  · simp only [hj, if_false]
    by_cases hl : j < p.buffersBySize.length
    · simp [hl]
    · simp only [hl, if_false, List.getElem?_eq_none (Nat.le_of_not_lt hl)]
      by_cases hk : j < k + 1 <;> simp [hk]

theorem withBucket_setBucket (p : bufferPool) (k : Nat) (sp sp1 : SyncPool) (c : Int) :
    ({ withBucket p k sp c with
        buffersBySize := (withBucket p k sp c).buffersBySize.set k (some sp1) } : bufferPool) =
      withBucket p k sp1 c := by
  unfold withBucket
  simp only [List.set_set]

theorem getElem?_withBucket_self (p : bufferPool) (k : Nat) (sp : SyncPool) (c : Int) :
    (withBucket p k sp c).buffersBySize[k]? = some (some sp) := by
  unfold withBucket
  simp only [getElem?_pad_set, if_true]

/-! ## `AllocBuffer` and `FreeBuffer` in closed form -/

theorem AllocBuffer_eq (pageSize : Int) (p : bufferPool) (size : uint32) (c : GetChoice)
    (k : Nat) (hlen : p.buffersBySize.length = p.countersBySize.length)
    (hk : AllocBuffer.pages pageSize size = (k : Int)) :
    AllocBuffer pageSize p size c =
      match (bucketOrNew p k).Get pageSize c with
      | none => none
      | some (b, sp1) =>
        match b.upTo (size.val : Int) with
        | none => none
        | some r => some (r, withBucket p k sp1 (counterAt p k + 1)) := by
  unfold AllocBuffer
  rw [hk, getPool_ofNat p k 1 hlen]
  simp only [getElem?_withBucket_self, withBucket_setBucket]

theorem FreeBuffer_eq (pageSize : Int) (p : bufferPool) (base len cap k : Nat)
    (hlen : p.buffersBySize.length = p.countersBySize.length)
    (h0 : 0 < pageSize) (hk : 1 ≤ k) (hcap : (cap : Int) = (k : Int) * pageSize) :
    FreeBuffer pageSize p (.mk base len cap) =
      some (withBucket p k ((bucketOrNew p k).Put (.mk base cap cap)) (counterAt p k - 1)) := by
  have hcpos : 0 < (cap : Int) := by
    rw [hcap]
    exact Int.mul_pos (by omega) h0
  have hmod : (cap : Int).tmod pageSize = 0 := by
    rw [Int.tmod_eq_emod hcpos.le h0.le, hcap]
    exact Int.mul_emod_left _ _
  have hdiv : (cap : Int).tdiv pageSize = (k : Int) := by
    rw [Int.tdiv_eq_ediv hcpos.le h0.le, hcap]
    exact Int.mul_ediv_cancel _ h0.ne'
  have hne : cap ≠ 0 := by omega
  have hup : (Slice.mk base len cap).upTo (cap : Int) = some (.mk base cap cap) := by
    simp [Slice.upTo, Slice.cap]
  unfold FreeBuffer
  simp only [reduceCtorEq, if_false, Slice.cap, hmod, hne, ne_eq, not_true_eq_false, or_self,
    hdiv, hup]
  rw [getPool_ofNat p k (-1) hlen]
  simp only [getElem?_withBucket_self, withBucket_setBucket]
  rfl

/-! ## The invariant -/

theorem AllocBuffer.pages_mul_lt {pageSize : Int} (h0 : 0 < pageSize)
    (h1 : pageSize < 9223372036854775808) (size : uint32) :
    AllocBuffer.pages pageSize size * pageSize < 9223372036854775808 := by
  obtain ⟨_, _, hlow⟩ := AllocBuffer.pages_spec h0 h1 size
  have hs : (size.val : Int) < 4294967296 := by have := size.isLt; omega
  by_cases hlt : (size.val : Int) < pageSize
  · have h := AllocBuffer.pages_cases h0 h1 size
    rw [if_pos hlt] at h
    rw [h, Int.one_mul]
    exact h1
  · rcases hlow with h | h
    · rw [h, Int.one_mul]
      exact h1
    · rw [Int.sub_mul, Int.one_mul] at h
      omega

theorem AllocBuffer.pages_ofNat {pageSize : Int} (h0 : 0 < pageSize)
    (h1 : pageSize < 9223372036854775808) (size : uint32) :
    ∃ k : Nat, 1 ≤ k ∧ AllocBuffer.pages pageSize size = (k : Int) := by
  obtain ⟨hk, _, _⟩ := AllocBuffer.pages_spec h0 h1 size
  refine ⟨(AllocBuffer.pages pageSize size).toNat, by omega, by omega⟩

theorem Inv.bucketOrNew {pageSize : Int} {p : bufferPool} (h : Inv pageSize p) (k : Nat) :
    (bucketOrNew p k).pageCount = (k : Int) ∧
    ∀ b ∈ (bucketOrNew p k).items, (b.cap : Int) = (k : Int) * pageSize ∧ b.len = b.cap := by
  unfold fuse.bucketOrNew
  cases hb : bucketAt p k with
  | none => simp
  | some sp =>
    obtain ⟨h1, _, h3⟩ := h.2 k sp hb
    exact ⟨h1, h3⟩

theorem Inv.withBucket {pageSize : Int} {p : bufferPool} (h : Inv pageSize p) (k : Nat)
    (sp : SyncPool) (c : Int) (hk : 1 ≤ k) (hpc : sp.pageCount = (k : Int))
    (hitems : ∀ b ∈ sp.items, (b.cap : Int) = (k : Int) * pageSize ∧ b.len = b.cap) :
    Inv pageSize (withBucket p k sp c) := by
  refine ⟨?_, ?_⟩
  · unfold fuse.withBucket
    simp only [length_pad_set]
    rw [h.1]
  · intro j sp1 hj
    rw [bucketAt_withBucket] at hj
    by_cases hjk : j = k
    · rw [if_pos hjk] at hj
      cases hj
      subst hjk
      exact ⟨hpc, hk, hitems⟩
    · rw [if_neg hjk] at hj
      exact h.2 j sp1 hj

theorem Inv.empty (pageSize : Int) : Inv pageSize bufferPool.empty := by
  refine ⟨rfl, ?_⟩
  intro k sp h
  simp [bucketAt, bufferPool.empty] at h

/-- What `sync.Pool.Get` hands out of a bucket that satisfies the invariant. -/
theorem SyncPool.Get_spec (pageSize : Int) (sp : SyncPool) (c : GetChoice) (k : Nat)
    (hpc : sp.pageCount = (k : Int))
    (hitems : ∀ b ∈ sp.items, (b.cap : Int) = (k : Int) * pageSize ∧ b.len = b.cap)
    (hlo : 0 ≤ (k : Int) * pageSize) (hhi : (k : Int) * pageSize < 9223372036854775808) :
    ∃ b sp1, sp.Get pageSize c = some (b, sp1) ∧ (b.cap : Int) = (k : Int) * pageSize ∧
      b.len = b.cap ∧ sp1.pageCount = (k : Int) ∧ (∀ x ∈ sp1.items, x ∈ sp.items) := by
  have hnew : sp.New pageSize c.addr =
      some (.mk c.addr ((k : Int) * pageSize).toNat ((k : Int) * pageSize).toNat) := by
    unfold SyncPool.New makeBytes
    rw [hpc, Int.mul_comm pageSize, wrapInt_eq_self hlo hhi, if_neg (by omega)]
  have hmint : ∃ b sp1, (sp.New pageSize c.addr).map (fun b => (b, sp)) = some (b, sp1) ∧
      (b.cap : Int) = (k : Int) * pageSize ∧
      b.len = b.cap ∧ sp1.pageCount = (k : Int) ∧ (∀ x ∈ sp1.items, x ∈ sp.items) := by
    refine ⟨.mk c.addr ((k : Int) * pageSize).toNat ((k : Int) * pageSize).toNat, sp,
      by rw [hnew]; rfl, ?_, rfl, hpc, fun x hx => hx⟩
    simp only [Slice.cap]
    omega
  unfold SyncPool.Get
  cases c.pick with
  | none => exact hmint
  | some i =>
    dsimp only
    cases hi : sp.items[i]? with
    | none => exact hmint
    | some b =>
      have hb : b ∈ sp.items := List.mem_iff_getElem?.mpr ⟨i, hi⟩
      exact ⟨b, { sp with items := sp.items.eraseIdx i }, rfl, (hitems b hb).1,
        (hitems b hb).2, hpc, fun x hx => List.mem_of_mem_eraseIdx hx⟩

/-- On a pool satisfying the invariant `AllocBuffer` does not panic, and its
result is described by the page count `k` of the request. -/
theorem AllocBuffer_spec {pageSize : Int} {p : bufferPool} (hinv : Inv pageSize p)
    (h0 : 0 < pageSize) (h1 : pageSize < 9223372036854775808) (size : uint32) (c : GetChoice) :
    ∃ (k : Nat) (b : Slice) (sp1 : SyncPool), 1 ≤ k ∧
      AllocBuffer.pages pageSize size = (k : Int) ∧
      AllocBuffer pageSize p size c = some (b, withBucket p k sp1 (counterAt p k + 1)) ∧
      b.len = size.val ∧ (b.cap : Int) = (k : Int) * pageSize ∧ b ≠ .nil ∧
      Inv pageSize (withBucket p k sp1 (counterAt p k + 1)) := by
  obtain ⟨k, hk1, hk⟩ := AllocBuffer.pages_ofNat h0 h1 size
  obtain ⟨_, hle, _⟩ := AllocBuffer.pages_spec h0 h1 size
  have hhi := AllocBuffer.pages_mul_lt h0 h1 size
  rw [hk] at hle hhi
  have hlo : 0 ≤ (k : Int) * pageSize := le_trans (Int.ofNat_nonneg _) hle
  obtain ⟨hpc, hitems⟩ := hinv.bucketOrNew k
  obtain ⟨b, sp1, hget, hcap, _, hpc1, hsub⟩ :=
    SyncPool.Get_spec pageSize (bucketOrNew p k) c k hpc hitems hlo hhi
  rw [AllocBuffer_eq pageSize p size c k hinv.1 hk, hget]
  cases b with
  | nil =>
    exfalso
    simp only [Slice.cap] at hcap
    have : 0 < (k : Int) * pageSize := Int.mul_pos (by omega) h0
    omega
  | mk base len cap =>
    simp only [Slice.cap] at hcap
    have hup : (Slice.mk base len cap).upTo (size.val : Int) = some (.mk base size.val cap) := by
      simp only [Slice.upTo, Slice.cap, Int.toNat_ofNat]
      rw [if_pos ⟨Int.ofNat_nonneg _, by omega⟩]
    refine ⟨k, .mk base size.val cap, sp1, hk1, hk, ?_, rfl, hcap, by simp,
      hinv.withBucket k sp1 _ hk1 hpc1 fun x hx => hitems x (hsub x hx)⟩
    simp only [hup]

/-- `FreeBuffer` on a slice it filters out. -/
theorem FreeBuffer_filtered (pageSize : Int) (p : bufferPool) (slice : Slice)
    (h : slice = .nil ∨ slice.cap = 0 ∨ (slice.cap : Int).tmod pageSize ≠ 0) :
    FreeBuffer pageSize p slice = some p := by
  unfold FreeBuffer
  by_cases hn : slice = .nil
  · rw [if_pos hn]
  · rw [if_neg hn]
    rcases h with h | h | h
    · exact absurd h hn
    · rw [if_pos (Or.inr h)]
    · rw [if_pos (Or.inl h)]

/-- Either `FreeBuffer` filters the slice out, or the slice is not nil and its
capacity is `k * pageSize` for some `k ≥ 1`. -/
theorem Slice.filtered_or_pages {pageSize : Int} (h0 : 0 < pageSize) (slice : Slice) :
    (slice = .nil ∨ slice.cap = 0 ∨ (slice.cap : Int).tmod pageSize ≠ 0) ∨
    ∃ base len cap k : Nat, slice = .mk base len cap ∧ 1 ≤ k ∧ (cap : Int) = (k : Int) * pageSize := by
  cases slice with
  | nil => exact Or.inl (Or.inl rfl)
  | mk base len cap =>
    by_cases hc : cap = 0
    · exact Or.inl (Or.inr (Or.inl hc))
    by_cases hm : (cap : Int).tmod pageSize = 0
    · right
      rw [Int.tmod_eq_emod (Int.ofNat_nonneg _) h0.le] at hm
      have hd := Int.emod_add_ediv (cap : Int) pageSize
      rw [hm, Int.zero_add] at hd
      have hq : 0 < (cap : Int) / pageSize := by
        by_contra hq
        have hq0 : (cap : Int) / pageSize ≤ 0 := by omega
        have := Int.mul_le_mul_of_nonneg_left hq0 h0.le
        omega
      refine ⟨base, len, cap, ((cap : Int) / pageSize).toNat, rfl, by omega, ?_⟩
      rw [Int.toNat_of_nonneg hq.le, Int.mul_comm]
      exact hd.symm
    · exact Or.inl (Or.inr (Or.inr hm))

theorem Inv.FreeBuffer {pageSize : Int} {p : bufferPool} (hinv : Inv pageSize p)
    (h0 : 0 < pageSize) (slice : Slice) :
    ∃ p1, FreeBuffer pageSize p slice = some p1 ∧ Inv pageSize p1 := by
  rcases Slice.filtered_or_pages h0 slice with h | ⟨base, len, cap, k, rfl, hk, hcap⟩
  · exact ⟨p, FreeBuffer_filtered pageSize p slice h, hinv⟩
  · refine ⟨_, FreeBuffer_eq pageSize p base len cap k hinv.1 h0 hk hcap, ?_⟩
    obtain ⟨hpc, hitems⟩ := hinv.bucketOrNew k
    refine hinv.withBucket k _ _ hk hpc ?_
    intro b hb
    simp only [SyncPool.Put, List.mem_append, List.mem_singleton] at hb
    rcases hb with hb | rfl
    · exact hitems b hb
    · exact ⟨hcap, rfl⟩

theorem Inv.AllocBuffer {pageSize : Int} {p : bufferPool} (hinv : Inv pageSize p)
    (h0 : 0 < pageSize) (h1 : pageSize < 9223372036854775808) (size : uint32) (c : GetChoice) :
    ∃ b p1, AllocBuffer pageSize p size c = some (b, p1) ∧ Inv pageSize p1 := by
  obtain ⟨k, b, sp1, _, _, hal, _, _, _, hi⟩ := AllocBuffer_spec hinv h0 h1 size c
  exact ⟨b, _, hal, hi⟩

theorem Inv.dropItem {pageSize : Int} {p : bufferPool} (hinv : Inv pageSize p) (k i : Nat) :
    Inv pageSize (dropItem p k i) := by
  unfold fuse.dropItem
  cases hb : p.buffersBySize[k]? with
  | none => exact hinv
  | some slot =>
    cases slot with
    | none => exact hinv
    | some sp =>
      have hkl : k < p.buffersBySize.length := (List.getElem?_eq_some.mp hb).1
      have hsp : bucketAt p k = some sp := by simp [bucketAt, hb]
      obtain ⟨hpc, hk1, hitems⟩ := hinv.2 k sp hsp
      refine ⟨by simpa using hinv.1, ?_⟩
      intro j sp1 hj
      simp only [bucketAt, List.getElem?_set] at hj
      by_cases hjk : k = j
      · subst hjk
        simp only [if_true, hkl] at hj
        cases hj
        exact ⟨hpc, hk1, fun x hx => hitems x (List.mem_of_mem_eraseIdx hx)⟩
      · simp only [hjk, if_false] at hj
        exact hinv.2 j sp1 hj

/-- Every event keeps the invariant and none panics. -/
theorem Inv.step {pageSize : Int} {p : bufferPool} (hinv : Inv pageSize p)
    (h0 : 0 < pageSize) (h1 : pageSize < 9223372036854775808) (op : Op) :
    ∃ p1, step pageSize p op = some p1 ∧ Inv pageSize p1 := by
  cases op with
  | alloc size c =>
    obtain ⟨b, p1, hal, hi⟩ := hinv.AllocBuffer h0 h1 size c
    exact ⟨p1, by simp [fuse.step, hal], hi⟩
  | free slice => exact hinv.FreeBuffer h0 slice
  | drop k i => exact ⟨_, rfl, hinv.dropItem k i⟩

theorem Inv.run {pageSize : Int} (h0 : 0 < pageSize) (h1 : pageSize < 9223372036854775808)
    (ops : List Op) : ∀ {p : bufferPool}, Inv pageSize p →
    ∃ p1, run pageSize p ops = some p1 ∧ Inv pageSize p1 := by
  induction ops with
  | nil => intro p hinv; exact ⟨p, rfl, hinv⟩
  | cons op ops ih =>
    intro p hinv
    obtain ⟨p1, hs, hi⟩ := hinv.step h0 h1 op
    obtain ⟨p2, hr, hi2⟩ := ih hi
    exact ⟨p2, by simp [fuse.run, hs, hr], hi2⟩

theorem Reachable.inv {pageSize : Int} {p : bufferPool} (h0 : 0 < pageSize)
    (h1 : pageSize < 9223372036854775808) (h : Reachable pageSize p) : Inv pageSize p := by
  obtain ⟨ops, hops⟩ := h
  obtain ⟨p1, hr, hi⟩ := Inv.run h0 h1 ops (Inv.empty pageSize)
  rw [hops] at hr
  cases hr
  exact hi

/-! ## An allocation followed by the release of its buffer -/

theorem counters_eq (p : bufferPool) : counters p = (p.countersBySize, p) := by
  simp [counters, copy]

theorem tdiv_pages {pageSize : Int} (h0 : 0 < pageSize) {cap k : Nat}
    (hcap : (cap : Int) = (k : Int) * pageSize) : ((cap : Int).tdiv pageSize).toNat = k := by
  have hc : 0 ≤ (cap : Int) := Int.ofNat_nonneg _
  rw [Int.tdiv_eq_ediv hc h0.le, hcap, Int.mul_ediv_cancel _ h0.ne']
  rfl

theorem pad_set_pad_set {α : Type} (l : List α) (k : Nat) (d a b : α) :
    (((l ++ List.replicate (k + 1 - l.length) d).set k a) ++
        List.replicate (k + 1 - ((l ++ List.replicate (k + 1 - l.length) d).set k a).length) d).set
        k b =
      (l ++ List.replicate (k + 1 - l.length) d).set k b := by
  have hz : k + 1 - ((l ++ List.replicate (k + 1 - l.length) d).set k a).length = 0 := by
    rw [length_pad_set]
    omega
  rw [hz, List.replicate_zero, List.append_nil, List.set_set]

theorem getElem?_pad_self {α : Type} (l : List α) (k : Nat) (d : α) :
    (l ++ List.replicate (k + 1 - l.length) d)[k]? = some ((l[k]?).getD d) := by
  by_cases hl : k < l.length
  · rw [List.getElem?_append_left hl, List.getElem?_eq_getElem hl]
    rfl
  · rw [List.getElem?_append_right (by omega), List.getElem?_replicate_of_lt (by omega),
      List.getElem?_eq_none (by omega)]
    rfl

theorem countersBySize_withBucket_restore (p : bufferPool) (k : Nat) (sp1 sp2 : SyncPool)
    (a : Int) :
    (withBucket (withBucket p k sp1 a) k sp2 (counterAt p k)).countersBySize =
      p.countersBySize ++ List.replicate (k + 1 - p.countersBySize.length) 0 := by
  unfold withBucket counterAt
  simp only [pad_set_pad_set, List.getD_eq_getElem?_getD]
  exact set_eq_self_of_getElem? (getElem?_pad_self _ _ _)

/-- `AllocBuffer(size)` followed by `FreeBuffer` of the slice it returned, on a
pool satisfying the invariant: neither call panics, both address the bucket
`k` of the request, and counter `k` is back at its old value. -/
theorem AllocBuffer_FreeBuffer {pageSize : Int} {p : bufferPool} (hinv : Inv pageSize p)
    (h0 : 0 < pageSize) (h1 : pageSize < 9223372036854775808) (size : uint32) (c : GetChoice) :
    ∃ (k : Nat) (b : Slice) (sp1 sp2 : SyncPool), 1 ≤ k ∧
      AllocBuffer.pages pageSize size = (k : Int) ∧
      AllocBuffer pageSize p size c = some (b, withBucket p k sp1 (counterAt p k + 1)) ∧
      (b.cap : Int) = (k : Int) * pageSize ∧
      FreeBuffer pageSize (withBucket p k sp1 (counterAt p k + 1)) b =
        some (withBucket (withBucket p k sp1 (counterAt p k + 1)) k sp2 (counterAt p k)) ∧
      Inv pageSize (withBucket (withBucket p k sp1 (counterAt p k + 1)) k sp2 (counterAt p k)) := by
  obtain ⟨k, b, sp1, hk1, hk, hal, _, hcap, hnil, hi1⟩ := AllocBuffer_spec hinv h0 h1 size c
  cases b with
  | nil => exact absurd rfl hnil
  | mk base len cap =>
    simp only [Slice.cap] at hcap
    have hfree := FreeBuffer_eq pageSize (withBucket p k sp1 (counterAt p k + 1)) base len cap k
      hi1.1 h0 hk1 hcap
    have hc : counterAt (withBucket p k sp1 (counterAt p k + 1)) k - 1 = counterAt p k := by
      rw [counterAt_withBucket, if_pos rfl]
      omega
    rw [hc] at hfree
    obtain ⟨p2, hf2, hi2⟩ := hi1.FreeBuffer h0 (.mk base len cap)
    rw [hfree] at hf2
    cases hf2
    exact ⟨k, _, sp1, _, hk1, hk, hal, hcap, hfree, hi2⟩

theorem getElem?_countersBySize_withBucket (p : bufferPool) (k : Nat) (sp : SyncPool) (c : Int)
    (j : Nat) (hj : j ≠ k) (hl : j < p.countersBySize.length) :
    (withBucket p k sp c).countersBySize[j]? = p.countersBySize[j]? := by
  unfold withBucket
  simp only [getElem?_pad_set, hj, hl, if_false, if_true]

theorem getElem?_countersBySize_withBucket_self (p : bufferPool) (k : Nat) (sp : SyncPool)
    (c : Int) : (withBucket p k sp c).countersBySize[k]? = some c := by
  unfold withBucket
  simp only [getElem?_pad_set, if_true]

theorem length_countersBySize_withBucket (p : bufferPool) (k : Nat) (sp : SyncPool) (c : Int) :
    (withBucket p k sp c).countersBySize.length = max p.countersBySize.length (k + 1) := by
  unfold withBucket
  simp only [length_pad_set]

/-! ## The contract of `AllocBuffer` -/

/-- C1. In every pool state reachable from the empty pool (by any calls of
`AllocBuffer` and `FreeBuffer`, on arbitrary slices), `AllocBuffer(size)`
returns a buffer `b` with `len(b) == size`, `cap(b) % pageSize == 0` and
`cap(b) >= max(size, pageSize)`, whichever stored item `sync.Pool.Get` picks
and also when it mints a new one. -/
theorem AllocBuffer_len_cap (pageSize : Int) (p : bufferPool) (size : uint32) (c : GetChoice)
    (h0 : 0 < pageSize) (h1 : pageSize < 9223372036854775808) (hp : Reachable pageSize p) :
    ∃ b p1, AllocBuffer pageSize p size c = some (b, p1) ∧ b.len = size.val ∧
      (b.cap : Int).tmod pageSize = 0 ∧ max (size.val : Int) pageSize ≤ (b.cap : Int) := by
  obtain ⟨k, b, sp1, hk1, hk, hal, hlen, hcap, _, _⟩ :=
    AllocBuffer_spec (hp.inv h0 h1) h0 h1 size c
  obtain ⟨_, hle, _⟩ := AllocBuffer.pages_spec h0 h1 size
  rw [hk] at hle
  refine ⟨b, _, hal, hlen, ?_, ?_⟩
  · rw [Int.tmod_eq_emod (Int.ofNat_nonneg _) h0.le, hcap]
    exact Int.mul_emod_left _ _
  · rw [hcap]
    refine max_le hle ?_
    have : 1 * pageSize ≤ (k : Int) * pageSize :=
      Int.mul_le_mul_of_nonneg_right (by omega) h0.le
    omega

/-- C1 on a pool that holds one recycled page, which the call takes. -/
theorem AllocBuffer_len_cap_witness :
    (0 : Int) < 4096 ∧ (4096 : Int) < 9223372036854775808 ∧
    Reachable 4096 ⟨[none, some ⟨1, [.mk 0 4096 4096]⟩], [0, 0]⟩ ∧
    ∃ b p1, AllocBuffer 4096 ⟨[none, some ⟨1, [.mk 0 4096 4096]⟩], [0, 0]⟩ 200 ⟨some 0, 1⟩
        = some (b, p1) ∧ b.len = (200 : uint32).val ∧
      (b.cap : Int).tmod 4096 = 0 ∧ max (((200 : uint32).val : Nat) : Int) 4096 ≤ (b.cap : Int) :=
  ⟨by decide, by decide, ⟨[.alloc 100 ⟨none, 0⟩, .free (.mk 0 100 4096)], by decide⟩,
    AllocBuffer_len_cap 4096 _ 200 ⟨some 0, 1⟩ (by decide) (by decide)
      ⟨[.alloc 100 ⟨none, 0⟩, .free (.mk 0 100 4096)], by decide⟩⟩

/-- C3. In every reachable pool, when `AllocBuffer(size)` returns `b` and
`FreeBuffer(b)` follows immediately, the counter of bucket
`cap(b) / pageSize` is back at the value it had before the allocation (a
counter slot that did not exist then counting as 0). -/
theorem alloc_free_counter_restored (pageSize : Int) (p : bufferPool) (size : uint32)
    (c : GetChoice) (h0 : 0 < pageSize) (h1 : pageSize < 9223372036854775808)
    (hp : Reachable pageSize p) :
    ∃ b p1 p2, AllocBuffer pageSize p size c = some (b, p1) ∧
      FreeBuffer pageSize p1 b = some p2 ∧
      counterAt p2 ((b.cap : Int).tdiv pageSize).toNat =
        counterAt p ((b.cap : Int).tdiv pageSize).toNat := by
  obtain ⟨k, b, sp1, sp2, _, _, hal, hcap, hfree, _⟩ :=
    AllocBuffer_FreeBuffer (hp.inv h0 h1) h0 h1 size c
  refine ⟨b, _, _, hal, hfree, ?_⟩
  rw [tdiv_pages h0 hcap, counterAt_withBucket, if_pos rfl]

/-- C3 on the empty pool, where counter 2 does not exist before the pair. -/
theorem alloc_free_counter_restored_witness :
    (0 : Int) < 4096 ∧ (4096 : Int) < 9223372036854775808 ∧ Reachable 4096 bufferPool.empty ∧
    ∃ b p1 p2, AllocBuffer 4096 bufferPool.empty 8000 ⟨none, 0⟩ = some (b, p1) ∧
      FreeBuffer 4096 p1 b = some p2 ∧
      counterAt p2 ((b.cap : Int).tdiv 4096).toNat =
        counterAt bufferPool.empty ((b.cap : Int).tdiv 4096).toNat :=
  ⟨by decide, by decide, ⟨[], rfl⟩,
    alloc_free_counter_restored 4096 bufferPool.empty 8000 ⟨none, 0⟩ (by decide) (by decide)
      ⟨[], rfl⟩⟩

/-- C4, as stated, fails on the empty pool with `pageSize = 4096`: `counters()`
is the empty sequence before `free(alloc(100))` and `[0, 0]` after it. -/
theorem alloc_free_counters_length_grows :
    (counters bufferPool.empty).1 = [] ∧
    AllocBuffer 4096 bufferPool.empty 100 ⟨none, 0⟩ =
      some (.mk 0 100 4096, ⟨[none, some ⟨1, []⟩], [0, 1]⟩) ∧
    FreeBuffer 4096 ⟨[none, some ⟨1, []⟩], [0, 1]⟩ (.mk 0 100 4096) =
      some ⟨[none, some ⟨1, [.mk 0 4096 4096]⟩], [0, 0]⟩ ∧
    (counters ⟨[none, some ⟨1, [.mk 0 4096 4096]⟩], [0, 0]⟩).1 = [0, 0] ∧
    (counters ⟨[none, some ⟨1, [.mk 0 4096 4096]⟩], [0, 0]⟩).1 ≠ (counters bufferPool.empty).1 := by
  decide

/-- C4, amended. In every reachable pool and for every size, `counters()`
after `free(alloc(size))` is the snapshot taken before the pair, extended by
zeros up to length `k + 1`, where `k` is the page count of `size`; it equals
the earlier snapshot exactly when index `k` was already within it. -/
theorem alloc_free_counters_padded (pageSize : Int) (p : bufferPool) (size : uint32)
    (c : GetChoice) (h0 : 0 < pageSize) (h1 : pageSize < 9223372036854775808)
    (hp : Reachable pageSize p) :
    ∃ b p1 p2, AllocBuffer pageSize p size c = some (b, p1) ∧
      FreeBuffer pageSize p1 b = some p2 ∧
      (counters p2).1 = (counters p).1 ++
        List.replicate ((AllocBuffer.pages pageSize size).toNat + 1 - (counters p).1.length) 0 ∧
      ((counters p2).1 = (counters p).1 ↔
        (AllocBuffer.pages pageSize size).toNat < (counters p).1.length) := by
  obtain ⟨k, b, sp1, sp2, _, hk, hal, _, hfree, _⟩ :=
    AllocBuffer_FreeBuffer (hp.inv h0 h1) h0 h1 size c
  have hpad : (counters (withBucket (withBucket p k sp1 (counterAt p k + 1)) k sp2
      (counterAt p k))).1 = (counters p).1 ++
        List.replicate ((AllocBuffer.pages pageSize size).toNat + 1 - (counters p).1.length) 0 := by
    rw [counters_eq, counters_eq, hk, Int.toNat_ofNat]
    exact countersBySize_withBucket_restore p k sp1 sp2 _
  refine ⟨b, _, _, hal, hfree, hpad, ?_⟩
  rw [hpad]
  constructor
  · intro h
    have hl := congrArg List.length h
    simp only [List.length_append, List.length_replicate] at hl
    omega
  · intro h
    have hz : (AllocBuffer.pages pageSize size).toNat + 1 - (counters p).1.length = 0 := by omega
    rw [hz, List.replicate_zero, List.append_nil]

/-- C4, amended, on the pool left by an earlier `alloc(100)`, `free`. -/
theorem alloc_free_counters_padded_witness :
    (0 : Int) < 4096 ∧ (4096 : Int) < 9223372036854775808 ∧
    Reachable 4096 ⟨[none, some ⟨1, [.mk 0 4096 4096]⟩], [0, 0]⟩ ∧
    ∃ b p1 p2, AllocBuffer 4096 ⟨[none, some ⟨1, [.mk 0 4096 4096]⟩], [0, 0]⟩ 8000 ⟨none, 9⟩
        = some (b, p1) ∧
      FreeBuffer 4096 p1 b = some p2 ∧
      (counters p2).1 = (counters ⟨[none, some ⟨1, [.mk 0 4096 4096]⟩], [0, 0]⟩).1 ++
        List.replicate ((AllocBuffer.pages 4096 8000).toNat + 1 -
          (counters ⟨[none, some ⟨1, [.mk 0 4096 4096]⟩], [0, 0]⟩).1.length) 0 ∧
      ((counters p2).1 = (counters ⟨[none, some ⟨1, [.mk 0 4096 4096]⟩], [0, 0]⟩).1 ↔
        (AllocBuffer.pages 4096 8000).toNat <
          (counters ⟨[none, some ⟨1, [.mk 0 4096 4096]⟩], [0, 0]⟩).1.length) :=
  ⟨by decide, by decide, ⟨[.alloc 100 ⟨none, 0⟩, .free (.mk 0 100 4096)], by decide⟩,
    alloc_free_counters_padded 4096 _ 8000 ⟨none, 9⟩ (by decide) (by decide)
      ⟨[.alloc 100 ⟨none, 0⟩, .free (.mk 0 100 4096)], by decide⟩⟩

/-- The counter `AllocBuffer` raises, read through `counters()`. -/
theorem AllocBuffer_counters_getElem? {pageSize : Int} {p : bufferPool} (hinv : Inv pageSize p)
    (h0 : 0 < pageSize) (h1 : pageSize < 9223372036854775808) (size : uint32) (c : GetChoice) :
    ∃ b p1, AllocBuffer pageSize p size c = some (b, p1) ∧
      (counters p1).1[(AllocBuffer.pages pageSize size).toNat]? =
        some (counterAt p (AllocBuffer.pages pageSize size).toNat + 1) := by
  obtain ⟨k, b, sp1, _, hk, hal, _, _, _, _⟩ := AllocBuffer_spec hinv h0 h1 size c
  refine ⟨b, _, hal, ?_⟩
  rw [counters_eq, hk, Int.toNat_ofNat]
  exact getElem?_countersBySize_withBucket_self p k sp1 _

/-- C7. In every reachable pool `AllocBuffer(size)` raises the counter of bucket
`k = max(1, ceil(size / pageSize))` by exactly one and leaves every other
counter, in particular every other existing one, at its value.  On the empty
pool with `pageSize = 4096`, `alloc(100)` and `alloc(4096)` each leave
`counters()[1] == 1`, and `alloc(4097)` leaves `counters()[2] == 1`. -/
theorem AllocBuffer_raises_counter (pageSize : Int) (p : bufferPool) (size : uint32) (c : GetChoice)
    (h0 : 0 < pageSize) (h1 : pageSize < 9223372036854775808) (hp : Reachable pageSize p) :
    (∃ b p1, AllocBuffer pageSize p size c = some (b, p1) ∧
      counterAt p1 (max 1 ⌈((size.val : Int) : ℚ) / (pageSize : ℚ)⌉).toNat =
        counterAt p (max 1 ⌈((size.val : Int) : ℚ) / (pageSize : ℚ)⌉).toNat + 1 ∧
      (counters p1).1[(max 1 ⌈((size.val : Int) : ℚ) / (pageSize : ℚ)⌉).toNat]? =
        some (counterAt p (max 1 ⌈((size.val : Int) : ℚ) / (pageSize : ℚ)⌉).toNat + 1) ∧
      (∀ j, j ≠ (max 1 ⌈((size.val : Int) : ℚ) / (pageSize : ℚ)⌉).toNat →
        counterAt p1 j = counterAt p j) ∧
      (∀ j, j ≠ (max 1 ⌈((size.val : Int) : ℚ) / (pageSize : ℚ)⌉).toNat →
        j < (counters p).1.length → (counters p1).1[j]? = (counters p).1[j]?)) ∧
    (∀ c1 : GetChoice, ∃ b p1, AllocBuffer 4096 bufferPool.empty 100 c1 = some (b, p1) ∧
      (counters p1).1[1]? = some 1) ∧
    (∀ c1 : GetChoice, ∃ b p1, AllocBuffer 4096 bufferPool.empty 4096 c1 = some (b, p1) ∧
      (counters p1).1[1]? = some 1) ∧
    (∀ c1 : GetChoice, ∃ b p1, AllocBuffer 4096 bufferPool.empty 4097 c1 = some (b, p1) ∧
      (counters p1).1[2]? = some 1) := by
  refine ⟨?_, ?_, ?_, ?_⟩
  · obtain ⟨k, b, sp1, _, hk, hal, _, _, _, _⟩ := AllocBuffer_spec (hp.inv h0 h1) h0 h1 size c
    rw [← AllocBuffer.pages_ceil h0 h1 size, hk, Int.toNat_ofNat]
    refine ⟨b, _, hal, ?_, ?_, ?_, ?_⟩
    · rw [counterAt_withBucket, if_pos rfl]
    · rw [counters_eq]
      exact getElem?_countersBySize_withBucket_self p k sp1 _
    · intro j hj
      rw [counterAt_withBucket, if_neg hj]
    · intro j hj hl
      rw [counters_eq] at hl ⊢
      rw [counters_eq]
      exact getElem?_countersBySize_withBucket p k sp1 _ j hj hl
  · intro c1
    have h := AllocBuffer_counters_getElem? (Inv.empty 4096) (by decide) (by decide) 100 c1
    have e : (AllocBuffer.pages 4096 100).toNat = 1 := by decide
    rw [e] at h
    exact h
  · intro c1
    have h := AllocBuffer_counters_getElem? (Inv.empty 4096) (by decide) (by decide) 4096 c1
    have e : (AllocBuffer.pages 4096 4096).toNat = 1 := by decide
    rw [e] at h
    exact h
  · intro c1
    have h := AllocBuffer_counters_getElem? (Inv.empty 4096) (by decide) (by decide) 4097 c1
    have e : (AllocBuffer.pages 4096 4097).toNat = 2 := by decide
    rw [e] at h
    exact h

/-- C7 for `alloc(4097)` on a pool whose counters are `[0, 0]`. -/
theorem AllocBuffer_raises_counter_witness :
    (0 : Int) < 4096 ∧ (4096 : Int) < 9223372036854775808 ∧
    Reachable 4096 ⟨[none, some ⟨1, [.mk 0 4096 4096]⟩], [0, 0]⟩ ∧
    AllocBuffer 4096 ⟨[none, some ⟨1, [.mk 0 4096 4096]⟩], [0, 0]⟩ 4097 ⟨none, 3⟩ =
      some (.mk 3 4097 8192,
        ⟨[none, some ⟨1, [.mk 0 4096 4096]⟩, some ⟨2, []⟩], [0, 0, 1]⟩) ∧
    ∃ b p1, AllocBuffer 4096 ⟨[none, some ⟨1, [.mk 0 4096 4096]⟩], [0, 0]⟩ 4097 ⟨none, 3⟩
        = some (b, p1) ∧
      counterAt p1 (max 1 ⌈(((4097 : uint32).val : Int) : ℚ) / ((4096 : Int) : ℚ)⌉).toNat =
        counterAt ⟨[none, some ⟨1, [.mk 0 4096 4096]⟩], [0, 0]⟩
          (max 1 ⌈(((4097 : uint32).val : Int) : ℚ) / ((4096 : Int) : ℚ)⌉).toNat + 1 :=
  ⟨by decide, by decide, ⟨[.alloc 100 ⟨none, 0⟩, .free (.mk 0 100 4096)], by decide⟩, by decide,
    let ⟨b, p1, h, hc, _⟩ := (AllocBuffer_raises_counter 4096 ⟨[none, some ⟨1, [.mk 0 4096 4096]⟩], [0, 0]⟩
      4097 ⟨none, 3⟩ (by decide) (by decide)
      ⟨[.alloc 100 ⟨none, 0⟩, .free (.mk 0 100 4096)], by decide⟩).1
    ⟨b, p1, h, hc⟩⟩

/-! ## The contract of `FreeBuffer` -/

/-- C5. `FreeBuffer` on a slice that is nil, has capacity 0, or has a capacity
that is not a multiple of `pageSize` returns without touching the pool: the
counters sequence and every bucket are what they were, so the slice is stored
nowhere. -/
theorem FreeBuffer_noop (pageSize : Int) (p : bufferPool) (slice : Slice) (h0 : 0 < pageSize)
    (h : slice = .nil ∨ slice.cap = 0 ∨ (slice.cap : Int).tmod pageSize ≠ 0) :
    ∃ p1, FreeBuffer pageSize p slice = some p1 ∧ (counters p1).1 = (counters p).1 ∧
      p1.buffersBySize = p.buffersBySize ∧ p1 = p := by
  have _ := h0
  exact ⟨p, FreeBuffer_filtered pageSize p slice h, rfl, rfl, rfl⟩

/-- C5 for a foreign five-byte slice on a pool that holds a page. -/
theorem FreeBuffer_noop_witness :
    (0 : Int) < 4096 ∧
    ((Slice.mk 77 5 5) = .nil ∨ (Slice.mk 77 5 5).cap = 0 ∨
      (((Slice.mk 77 5 5).cap : Nat) : Int).tmod 4096 ≠ 0) ∧
    ∃ p1, FreeBuffer 4096 ⟨[none, some ⟨1, [.mk 0 4096 4096]⟩], [0, 0]⟩ (.mk 77 5 5) = some p1 ∧
      (counters p1).1 = (counters ⟨[none, some ⟨1, [.mk 0 4096 4096]⟩], [0, 0]⟩).1 ∧
      p1.buffersBySize = [none, some ⟨1, [.mk 0 4096 4096]⟩] ∧
      p1 = ⟨[none, some ⟨1, [.mk 0 4096 4096]⟩], [0, 0]⟩ :=
  ⟨by decide, by decide,
    FreeBuffer_noop 4096 ⟨[none, some ⟨1, [.mk 0 4096 4096]⟩], [0, 0]⟩ (.mk 77 5 5) (by decide)
      (by decide)⟩

/-- C6. On a pool whose two sequences have equal length (every reachable pool),
`FreeBuffer` on a slice whose capacity is a positive multiple of `pageSize`,
whatever its base address and length, appends the slice, resliced to its full
capacity, to the items of bucket `k = cap / pageSize`, lowers counter `k` by
one, and leaves every other counter and every other bucket as it was. -/
theorem FreeBuffer_stores (pageSize : Int) (p : bufferPool) (base len cap : Nat)
    (h0 : 0 < pageSize) (hlen : p.buffersBySize.length = p.countersBySize.length)
    (hpos : 0 < cap) (hmul : (cap : Int).tmod pageSize = 0) :
    ∃ p1, FreeBuffer pageSize p (.mk base len cap) = some p1 ∧
      (bucketAt p1 ((cap : Int).tdiv pageSize).toNat).map SyncPool.items =
        some (((bucketAt p ((cap : Int).tdiv pageSize).toNat).map SyncPool.items).getD [] ++
          [.mk base cap cap]) ∧
      counterAt p1 ((cap : Int).tdiv pageSize).toNat =
        counterAt p ((cap : Int).tdiv pageSize).toNat - 1 ∧
      (∀ j, j ≠ ((cap : Int).tdiv pageSize).toNat →
        counterAt p1 j = counterAt p j ∧ bucketAt p1 j = bucketAt p j) ∧
      (∀ j, j ≠ ((cap : Int).tdiv pageSize).toNat → j < p.countersBySize.length →
        p1.countersBySize[j]? = p.countersBySize[j]?) := by
  rcases Slice.filtered_or_pages h0 (.mk base len cap) with h | ⟨b, l, c, k, he, hk, hcap⟩
  · exfalso
    simp only [reduceCtorEq, Slice.cap, false_or] at h
    rcases h with h | h
    · omega
    · exact h hmul
  · cases he
    rw [tdiv_pages h0 hcap]
    refine ⟨_, FreeBuffer_eq pageSize p base len cap k hlen h0 hk hcap, ?_, ?_, ?_, ?_⟩
    · rw [bucketAt_withBucket, if_pos rfl]
      unfold bucketOrNew
      cases bucketAt p k <;> simp [SyncPool.Put]
    · rw [counterAt_withBucket, if_pos rfl]
    · intro j hj
      rw [counterAt_withBucket, bucketAt_withBucket, if_neg hj, if_neg hj]
      exact ⟨rfl, rfl⟩
    · intro j hj hl
      exact getElem?_countersBySize_withBucket p k _ _ j hj hl

/-- C6 for a foreign two-page slice of length 3 on a pool that has bucket 1 only. -/
theorem FreeBuffer_stores_witness :
    (0 : Int) < 4096 ∧ 0 < 8192 ∧ ((8192 : Nat) : Int).tmod 4096 = 0 ∧
    ∃ p1, FreeBuffer 4096 ⟨[none, some ⟨1, [.mk 0 4096 4096]⟩], [0, 0]⟩ (.mk 50 3 8192)
        = some p1 ∧
      (bucketAt p1 (((8192 : Nat) : Int).tdiv 4096).toNat).map SyncPool.items =
        some (((bucketAt ⟨[none, some ⟨1, [.mk 0 4096 4096]⟩], [0, 0]⟩
          (((8192 : Nat) : Int).tdiv 4096).toNat).map SyncPool.items).getD [] ++
          [.mk 50 8192 8192]) ∧
      counterAt p1 (((8192 : Nat) : Int).tdiv 4096).toNat =
        counterAt ⟨[none, some ⟨1, [.mk 0 4096 4096]⟩], [0, 0]⟩
          (((8192 : Nat) : Int).tdiv 4096).toNat - 1 ∧
      (∀ j, j ≠ (((8192 : Nat) : Int).tdiv 4096).toNat →
        counterAt p1 j = counterAt ⟨[none, some ⟨1, [.mk 0 4096 4096]⟩], [0, 0]⟩ j ∧
        bucketAt p1 j = bucketAt ⟨[none, some ⟨1, [.mk 0 4096 4096]⟩], [0, 0]⟩ j) ∧
      (∀ j, j ≠ (((8192 : Nat) : Int).tdiv 4096).toNat →
        j < (bufferPool.mk [none, some ⟨1, [.mk 0 4096 4096]⟩] [0, 0]).countersBySize.length →
        p1.countersBySize[j]? =
          (bufferPool.mk [none, some ⟨1, [.mk 0 4096 4096]⟩] [0, 0]).countersBySize[j]?) :=
  ⟨by decide, by decide, by decide,
    FreeBuffer_stores 4096 ⟨[none, some ⟨1, [.mk 0 4096 4096]⟩], [0, 0]⟩ 50 3 8192 (by decide) rfl
      (by decide) (by decide)⟩

/-! ## Counters as a tally of the calls -/

theorem counterAt_dropItem (p : bufferPool) (k i j : Nat) :
    counterAt (dropItem p k i) j = counterAt p j := by
  unfold dropItem
  cases p.buffersBySize[k]? with
  | none => rfl
  | some slot => cases slot <;> rfl

/-- The effect of one event on every counter. -/
theorem step_counterAt {pageSize : Int} {p : bufferPool} (hinv : Inv pageSize p)
    (h0 : 0 < pageSize) (h1 : pageSize < 9223372036854775808) (op : Op) :
    ∃ p1, step pageSize p op = some p1 ∧ Inv pageSize p1 ∧
      ∀ k, counterAt p1 k = counterAt p k + (if op.allocsTo pageSize k then 1 else 0)
        - (if op.freesFrom pageSize k then 1 else 0) := by
  cases op with
  | alloc size c =>
    obtain ⟨k0, b, sp1, _, hk, hal, _, _, _, hi⟩ := AllocBuffer_spec hinv h0 h1 size c
    refine ⟨_, by simp [step, hal], hi, ?_⟩
    intro k
    rw [counterAt_withBucket]
    simp only [Op.allocsTo, Op.freesFrom, hk, Nat.cast_inj, decide_eq_true_eq]
    by_cases hkk : k = k0
    · subst hkk
      simp
    · have : ¬ k0 = k := fun h => hkk h.symm
      simp [hkk, this]
  | free slice =>
    rcases Slice.filtered_or_pages h0 slice with h | ⟨base, len, cap, k0, rfl, hk0, hcap⟩
    · refine ⟨p, FreeBuffer_filtered pageSize p slice h, hinv, ?_⟩
      intro k
      have hno : ¬ (1 ≤ k ∧ (slice.cap : Int) = (k : Int) * pageSize) := by
        rintro ⟨hk, he⟩
        have hpos : 0 < (k : Int) * pageSize := Int.mul_pos (by omega) h0
        rcases h with h | h | h
        · subst h
          simp only [Slice.cap] at he
          omega
        · omega
        · apply h
          rw [Int.tmod_eq_emod (Int.ofNat_nonneg _) h0.le, he]
          exact Int.mul_emod_left _ _
      simp [Op.allocsTo, Op.freesFrom, hno]
    · refine ⟨_, FreeBuffer_eq pageSize p base len cap k0 hinv.1 h0 hk0 hcap, ?_, ?_⟩
      · obtain ⟨p2, hf, hi⟩ := hinv.FreeBuffer h0 (.mk base len cap)
        rw [FreeBuffer_eq pageSize p base len cap k0 hinv.1 h0 hk0 hcap] at hf
        cases hf
        exact hi
      · intro k
        rw [counterAt_withBucket]
        simp only [Op.allocsTo, Op.freesFrom, Slice.cap, hcap]
        by_cases hkk : k = k0
        · subst hkk
          simp [hk0]
        · have hne : ¬ ((k0 : Int) * pageSize = (k : Int) * pageSize) := by
            intro he
            have := Int.eq_of_mul_eq_mul_right h0.ne' he
            omega
          simp [hkk, hne]
  | drop k0 i =>
    refine ⟨_, rfl, hinv.dropItem k0 i, ?_⟩
    intro k
    simp [counterAt_dropItem, Op.allocsTo, Op.freesFrom]

theorem run_counterAt {pageSize : Int} (h0 : 0 < pageSize) (h1 : pageSize < 9223372036854775808)
    (ops : List Op) : ∀ {p : bufferPool}, Inv pageSize p →
    ∃ p1, run pageSize p ops = some p1 ∧ Inv pageSize p1 ∧
      ∀ k, counterAt p1 k = counterAt p k + (allocCount pageSize k ops : Int)
        - (freeCount pageSize k ops : Int) := by
  induction ops with
  | nil =>
    intro p hinv
    exact ⟨p, rfl, hinv, fun k => by simp [allocCount, freeCount]⟩
  | cons op ops ih =>
    intro p hinv
    obtain ⟨p1, hs, hi, hc⟩ := step_counterAt hinv h0 h1 op
    obtain ⟨p2, hr, hi2, hc2⟩ := ih hi
    refine ⟨p2, by simp [run, hs, hr], hi2, ?_⟩
    intro k
    rw [hc2 k, hc k]
    unfold allocCount freeCount
    simp only [List.filter_cons]
    cases Op.allocsTo pageSize k op <;> cases Op.freesFrom pageSize k op <;>
      simp <;> omega

/-- C8. Any finite sequence of `AllocBuffer` and `FreeBuffer` calls on the empty
pool runs to a pool in which, at every index `k` of the counters sequence,
`counters()[k]` is the number of `AllocBuffer` calls whose size maps to page
count `k` minus the number of `FreeBuffer` calls on slices of capacity exactly
`k * pageSize` (`k ≥ 1`); an index no call addressed holds 0. -/
theorem counters_tally (pageSize : Int) (ops : List Op) (h0 : 0 < pageSize)
    (h1 : pageSize < 9223372036854775808) :
    ∃ p, run pageSize bufferPool.empty ops = some p ∧
      ∀ k, k < (counters p).1.length →
        (counters p).1[k]? =
          some ((allocCount pageSize k ops : Int) - (freeCount pageSize k ops : Int)) ∧
        (allocCount pageSize k ops = 0 → freeCount pageSize k ops = 0 →
          (counters p).1[k]? = some 0) := by
  obtain ⟨p, hr, _, hc⟩ := run_counterAt h0 h1 ops (Inv.empty pageSize)
  refine ⟨p, hr, ?_⟩
  intro k hk
  rw [counters_eq] at hk ⊢
  have hget : p.countersBySize[k]? =
      some ((allocCount pageSize k ops : Int) - (freeCount pageSize k ops : Int)) := by
    have h := hc k
    unfold counterAt at h
    simp only [List.getD_eq_getElem?_getD, bufferPool.empty, List.getElem?_nil,
      Option.getD_none, Int.zero_add] at h
    rw [List.getElem?_eq_getElem hk] at h ⊢
    simp only [Option.getD_some] at h
    rw [h]
  refine ⟨hget, ?_⟩
  intro ha hf
  rw [hget, ha, hf]
  rfl

/-- C8 for two allocations of two pages, one release of a page-sized foreign
slice and one filtered release: counters `[0, -1, 2]`. -/
theorem counters_tally_witness :
    (0 : Int) < 4096 ∧ (4096 : Int) < 9223372036854775808 ∧
    (run 4096 bufferPool.empty
      [.alloc 8000 ⟨none, 0⟩, .free (.mk 9 10 4096), .alloc 4097 ⟨none, 1⟩, .free (.mk 5 5 5)]).map
        (fun p => (counters p).1) = some [0, -1, 2] ∧
    ∃ p, run 4096 bufferPool.empty
        [.alloc 8000 ⟨none, 0⟩, .free (.mk 9 10 4096), .alloc 4097 ⟨none, 1⟩, .free (.mk 5 5 5)]
        = some p ∧
      ∀ k, k < (counters p).1.length →
        (counters p).1[k]? =
          some ((allocCount 4096 k
              [.alloc 8000 ⟨none, 0⟩, .free (.mk 9 10 4096), .alloc 4097 ⟨none, 1⟩,
                .free (.mk 5 5 5)] : Int) -
            (freeCount 4096 k
              [.alloc 8000 ⟨none, 0⟩, .free (.mk 9 10 4096), .alloc 4097 ⟨none, 1⟩,
                .free (.mk 5 5 5)] : Int)) ∧
        (allocCount 4096 k
            [.alloc 8000 ⟨none, 0⟩, .free (.mk 9 10 4096), .alloc 4097 ⟨none, 1⟩,
              .free (.mk 5 5 5)] = 0 →
          freeCount 4096 k
            [.alloc 8000 ⟨none, 0⟩, .free (.mk 9 10 4096), .alloc 4097 ⟨none, 1⟩,
              .free (.mk 5 5 5)] = 0 →
          (counters p).1[k]? = some 0) :=
  ⟨by decide, by decide, by decide,
    counters_tally 4096
      [.alloc 8000 ⟨none, 0⟩, .free (.mk 9 10 4096), .alloc 4097 ⟨none, 1⟩, .free (.mk 5 5 5)]
      (by decide) (by decide)⟩

/-! ## Recycling -/

/-- C10. In every reachable pool, for two sizes with the same page count,
`b1 = alloc(s1)`, `free(b1)`, `b2 = alloc(s2)` all succeed and
`cap(b2) == cap(b1)`, namely that page count times `pageSize`, whichever item
the second `sync.Pool.Get` hands out and also when it mints. -/
theorem AllocBuffer_recycles_cap (pageSize : Int) (p : bufferPool) (s1 s2 : uint32)
    (c1 c2 : GetChoice) (h0 : 0 < pageSize) (h1 : pageSize < 9223372036854775808)
    (hp : Reachable pageSize p)
    (hsame : AllocBuffer.pages pageSize s1 = AllocBuffer.pages pageSize s2) :
    ∃ b1 p1 p2 b2 p3, AllocBuffer pageSize p s1 c1 = some (b1, p1) ∧
      FreeBuffer pageSize p1 b1 = some p2 ∧
      AllocBuffer pageSize p2 s2 c2 = some (b2, p3) ∧
      b2.cap = b1.cap ∧ (b1.cap : Int) = AllocBuffer.pages pageSize s1 * pageSize := by
  obtain ⟨k, b1, sp1, sp2, _, hk, hal, hcap, hfree, hi2⟩ :=
    AllocBuffer_FreeBuffer (hp.inv h0 h1) h0 h1 s1 c1
  obtain ⟨k2, b2, sp3, _, hk2, hal2, _, hcap2, _, _⟩ := AllocBuffer_spec hi2 h0 h1 s2 c2
  refine ⟨b1, _, _, b2, _, hal, hfree, hal2, ?_, by rw [hk, hcap]⟩
  have hkk : (k2 : Int) = (k : Int) := by rw [← hk2, ← hk, hsame]
  have : (b2.cap : Int) = (b1.cap : Int) := by rw [hcap, hcap2, hkk]
  exact_mod_cast this

/-- C10 with `pageSize = 4096`: `alloc(100)`, `free`, `alloc(200)`, the second
allocation taking the page the release stored. -/
theorem AllocBuffer_recycles_cap_witness :
    (0 : Int) < 4096 ∧ (4096 : Int) < 9223372036854775808 ∧ Reachable 4096 bufferPool.empty ∧
    AllocBuffer.pages 4096 100 = AllocBuffer.pages 4096 200 ∧
    AllocBuffer 4096 ⟨[none, some ⟨1, [.mk 0 4096 4096]⟩], [0, 0]⟩ 200 ⟨some 0, 1⟩ =
      some (.mk 0 200 4096, ⟨[none, some ⟨1, []⟩], [0, 1]⟩) ∧
    ∃ b1 p1 p2 b2 p3, AllocBuffer 4096 bufferPool.empty 100 ⟨none, 0⟩ = some (b1, p1) ∧
      FreeBuffer 4096 p1 b1 = some p2 ∧
      AllocBuffer 4096 p2 200 ⟨some 0, 1⟩ = some (b2, p3) ∧
      b2.cap = b1.cap ∧ (b1.cap : Int) = AllocBuffer.pages 4096 100 * 4096 :=
  ⟨by decide, by decide, ⟨[], rfl⟩, by decide, by decide,
    AllocBuffer_recycles_cap 4096 bufferPool.empty 100 200 ⟨none, 0⟩ ⟨some 0, 1⟩ (by decide)
      (by decide) ⟨[], rfl⟩ (by decide)⟩

/-! ## The shape of one event -/

theorem bucketAt_dropItem (p : bufferPool) (k i j : Nat) :
    bucketAt (dropItem p k i) j =
      if j = k then (bucketAt p k).map (fun sp => { sp with items := sp.items.eraseIdx i })
      else bucketAt p j := by
  unfold dropItem
  cases hb : p.buffersBySize[k]? with
  | none =>
    by_cases hj : j = k
    · subst hj
      simp [bucketAt, hb]
    · simp [hj]
  | some slot =>
    cases slot with
    | none =>
      by_cases hj : j = k
      · subst hj
        simp [bucketAt, hb]
      · simp [hj]
    | some sp =>
      have hkl : k < p.buffersBySize.length := (List.getElem?_eq_some.mp hb).1
      by_cases hj : j = k
      · subst hj
        simp [bucketAt, hb, hkl]
      · have hj2 : ¬ k = j := fun h => hj h.symm
        simp [bucketAt, hj, hj2, List.getElem?_set]

theorem length_dropItem (p : bufferPool) (k i : Nat) :
    (dropItem p k i).buffersBySize.length = p.buffersBySize.length ∧
    (dropItem p k i).countersBySize = p.countersBySize := by
  unfold dropItem
  cases p.buffersBySize[k]? with
  | none => exact ⟨rfl, rfl⟩
  | some slot =>
    cases slot with
    | none => exact ⟨rfl, rfl⟩
    | some sp => exact ⟨by simp, rfl⟩

/-- What one event does to a pool satisfying the invariant: nothing (a filtered
release), the removal of a stored item, or an update of one bucket and its
counter after padding, the bucket being that of an allocation's page count or
of a released slice's capacity. -/
theorem step_cases {pageSize : Int} {p : bufferPool} (hinv : Inv pageSize p)
    (h0 : 0 < pageSize) (h1 : pageSize < 9223372036854775808) (op : Op) :
    ∃ p1, step pageSize p op = some p1 ∧ Inv pageSize p1 ∧
      (p1 = p ∨ (∃ k i, op = .drop k i ∧ p1 = dropItem p k i) ∨
        ∃ (k : Nat) (sp : SyncPool) (c : Int), p1 = withBucket p k sp c ∧ 1 ≤ k ∧
          ((∃ size ch, op = .alloc size ch ∧ AllocBuffer.pages pageSize size = (k : Int)) ∨
            ∃ base len cap, op = .free (.mk base len cap) ∧
              (cap : Int) = (k : Int) * pageSize)) := by
  cases op with
  | alloc size c =>
    obtain ⟨k0, b, sp1, hk1, hk, hal, _, _, _, hi⟩ := AllocBuffer_spec hinv h0 h1 size c
    exact ⟨_, by simp [step, hal], hi,
      Or.inr (Or.inr ⟨k0, sp1, _, rfl, hk1, Or.inl ⟨size, c, rfl, hk⟩⟩)⟩
  | free slice =>
    rcases Slice.filtered_or_pages h0 slice with h | ⟨base, len, cap, k0, rfl, hk0, hcap⟩
    · exact ⟨p, FreeBuffer_filtered pageSize p slice h, hinv, Or.inl rfl⟩
    · have hf := FreeBuffer_eq pageSize p base len cap k0 hinv.1 h0 hk0 hcap
      obtain ⟨p2, hf2, hi⟩ := hinv.FreeBuffer h0 (.mk base len cap)
      rw [hf] at hf2
      cases hf2
      exact ⟨_, hf, hi, Or.inr (Or.inr ⟨k0, _, _, rfl, hk0, Or.inr ⟨base, len, cap, rfl, hcap⟩⟩)⟩
  | drop k0 i =>
    exact ⟨_, rfl, hinv.dropItem k0 i, Or.inr (Or.inl ⟨k0, i, rfl, rfl⟩)⟩

/-! ## What a bucket stores and mints -/

theorem MintInv.keep_step {pageSize : Int} {p : bufferPool} (hinv : Inv pageSize p)
    (hm : MintInv pageSize p) (h0 : 0 < pageSize) (h1 : pageSize < 9223372036854775808)
    (op : Op) (hop : op.InRange) :
    ∃ p1, step pageSize p op = some p1 ∧ Inv pageSize p1 ∧ MintInv pageSize p1 := by
  obtain ⟨p1, hs, hi, hshape⟩ := step_cases hinv h0 h1 op
  refine ⟨p1, hs, hi, ?_⟩
  rcases hshape with rfl | ⟨k, i, _, rfl⟩ | ⟨k, sp, c, rfl, _, hsrc⟩
  · exact hm
  · intro j sp hj
    rw [bucketAt_dropItem] at hj
    by_cases hjk : j = k
    · subst hjk
      rw [if_pos rfl] at hj
      cases hb : bucketAt p j with
      | none => rw [hb] at hj; cases hj
      | some sp0 => exact hm j sp0 hb
    · rw [if_neg hjk] at hj
      exact hm j sp hj
  · intro j sp2 hj
    rw [bucketAt_withBucket] at hj
    by_cases hjk : j = k
    · subst hjk
      rcases hsrc with ⟨size, ch, _, hk⟩ | ⟨base, len, cap, rfl, hcap⟩
      · rw [← hk]
        exact AllocBuffer.pages_mul_lt h0 h1 size
      · rw [← hcap]
        exact hop
    · rw [if_neg hjk] at hj
      exact hm j sp2 hj

theorem MintInv.keep_run {pageSize : Int} (h0 : 0 < pageSize) (h1 : pageSize < 9223372036854775808)
    (ops : List Op) : ∀ {p : bufferPool}, Inv pageSize p → MintInv pageSize p →
    (∀ op ∈ ops, op.InRange) →
    ∃ p1, run pageSize p ops = some p1 ∧ Inv pageSize p1 ∧ MintInv pageSize p1 := by
  induction ops with
  | nil => intro p hinv hm _; exact ⟨p, rfl, hinv, hm⟩
  | cons op ops ih =>
    intro p hinv hm hops
    obtain ⟨p1, hs, hi, hm1⟩ := hm.keep_step hinv h0 h1 op (hops op (List.mem_cons_self _ _))
    obtain ⟨p2, hr, hi2, hm2⟩ := ih hi hm1 (fun o ho => hops o (List.mem_cons_of_mem _ ho))
    exact ⟨p2, by simp [fuse.run, hs, hr], hi2, hm2⟩

/-- C12. Any sequence of `AllocBuffer` and `FreeBuffer` calls on the empty pool,
on arbitrary slices (a capacity being an `int`), runs to a pool in which every
bucket present at an index `k` has `k ≥ 1`, stores only buffers of capacity
exactly `k * pageSize` whose length equals their capacity, and mints buffers
of capacity (and length) exactly `k * pageSize`. -/
theorem bucket_capacity (pageSize : Int) (ops : List Op) (h0 : 0 < pageSize)
    (h1 : pageSize < 9223372036854775808) (hops : ∀ op ∈ ops, op.InRange) :
    ∃ p, run pageSize bufferPool.empty ops = some p ∧
      ∀ (k : Nat) (sp : SyncPool), bucketAt p k = some sp →
        1 ≤ k ∧
        (∀ b ∈ sp.items, (b.cap : Int) = (k : Int) * pageSize ∧ b.len = b.cap) ∧
        ∀ addr : Nat, ∃ b, sp.New pageSize addr = some b ∧
          (b.cap : Int) = (k : Int) * pageSize ∧ b.len = b.cap := by
  have hm0 : MintInv pageSize bufferPool.empty := by
    intro k sp h
    simp [bucketAt, bufferPool.empty] at h
  obtain ⟨p, hr, hi, hm⟩ := MintInv.keep_run h0 h1 ops (Inv.empty pageSize) hm0 hops
  refine ⟨p, hr, ?_⟩
  intro k sp hk
  obtain ⟨hpc, hk1, hitems⟩ := hi.2 k sp hk
  refine ⟨hk1, hitems, ?_⟩
  intro addr
  have hlo : 0 ≤ (k : Int) * pageSize := Int.mul_nonneg (Int.ofNat_nonneg _) h0.le
  refine ⟨.mk addr ((k : Int) * pageSize).toNat ((k : Int) * pageSize).toNat, ?_, ?_, rfl⟩
  · unfold SyncPool.New makeBytes
    rw [hpc, Int.mul_comm pageSize, wrapInt_eq_self hlo (hm k sp hk), if_neg (by omega)]
  · simp only [Slice.cap]
    omega

/-- C12 after an allocation of two pages, the release of a foreign page-sized
slice of length 7, and the release of the allocated buffer. -/
theorem bucket_capacity_witness :
    (0 : Int) < 4096 ∧ (4096 : Int) < 9223372036854775808 ∧
    run 4096 bufferPool.empty
        [.alloc 8000 ⟨none, 0⟩, .free (.mk 9 7 4096), .free (.mk 0 8000 8192)] =
      some ⟨[none, some ⟨1, [.mk 9 4096 4096]⟩, some ⟨2, [.mk 0 8192 8192]⟩], [0, -1, 0]⟩ ∧
    ∃ p, run 4096 bufferPool.empty
        [.alloc 8000 ⟨none, 0⟩, .free (.mk 9 7 4096), .free (.mk 0 8000 8192)] = some p ∧
      ∀ (k : Nat) (sp : SyncPool), bucketAt p k = some sp →
        1 ≤ k ∧
        (∀ b ∈ sp.items, (b.cap : Int) = (k : Int) * 4096 ∧ b.len = b.cap) ∧
        ∀ addr : Nat, ∃ b, sp.New 4096 addr = some b ∧
          (b.cap : Int) = (k : Int) * 4096 ∧ b.len = b.cap :=
  ⟨by decide, by decide, by decide,
    bucket_capacity 4096 [.alloc 8000 ⟨none, 0⟩, .free (.mk 9 7 4096), .free (.mk 0 8000 8192)]
      (by decide) (by decide) (by
        intro op hop
        simp only [List.mem_cons, List.mem_singleton, List.not_mem_nil, or_false] at hop
        rcases hop with rfl | rfl | rfl <;> simp [Op.InRange, Slice.cap])⟩

/-! ## Equal lengths -/

theorem withBucket_length_eq (p : bufferPool) (k : Nat) (sp : SyncPool) (c : Int)
    (hlen : p.buffersBySize.length = p.countersBySize.length) :
    (withBucket p k sp c).buffersBySize.length = (withBucket p k sp c).countersBySize.length := by
  unfold withBucket
  simp only [length_pad_set]
  rw [hlen]

/-- The pool `AllocBuffer` leaves behind whenever it returns. -/
theorem AllocBuffer_some_shape {pageSize : Int} {p : bufferPool}
    (hlen : p.buffersBySize.length = p.countersBySize.length)
    (h0 : 0 < pageSize) (h1 : pageSize < 9223372036854775808) {size : uint32} {c : GetChoice}
    {b : Slice} {p1 : bufferPool} (hal : AllocBuffer pageSize p size c = some (b, p1)) :
    ∃ (k : Nat) (sp1 : SyncPool), AllocBuffer.pages pageSize size = (k : Int) ∧
      p1 = withBucket p k sp1 (counterAt p k + 1) := by
  obtain ⟨k, _, hk⟩ := AllocBuffer.pages_ofNat h0 h1 size
  rw [AllocBuffer_eq pageSize p size c k hlen hk] at hal
  cases hg : (bucketOrNew p k).Get pageSize c with
  | none => rw [hg] at hal; cases hal
  | some r =>
    obtain ⟨b0, sp1⟩ := r
    rw [hg] at hal
    dsimp only at hal
    cases hu : b0.upTo (size.val : Int) with
    | none => rw [hu] at hal; cases hal
    | some r1 =>
      rw [hu] at hal
      cases hal
      exact ⟨k, sp1, hk, rfl⟩

/-- `FreeBuffer` on a pool whose sequences have equal length: it returns, and
the pool is unchanged or has one bucket and its counter updated. -/
theorem FreeBuffer_shape {pageSize : Int} (p : bufferPool) (slice : Slice)
    (hlen : p.buffersBySize.length = p.countersBySize.length) (h0 : 0 < pageSize) :
    FreeBuffer pageSize p slice = some p ∨
    ∃ (k : Nat) (sp : SyncPool), 1 ≤ k ∧ (slice.cap : Int) = (k : Int) * pageSize ∧
      FreeBuffer pageSize p slice = some (withBucket p k sp (counterAt p k - 1)) := by
  rcases Slice.filtered_or_pages h0 slice with h | ⟨base, len, cap, k, rfl, hk, hcap⟩
  · exact Or.inl (FreeBuffer_filtered pageSize p slice h)
  · exact Or.inr ⟨k, _, hk, hcap, FreeBuffer_eq pageSize p base len cap k hlen h0 hk hcap⟩

theorem getPool_neg (p : bufferPool) (pageCount delta : Int) (h : pageCount < 0) :
    getPool p pageCount delta = none := by
  unfold getPool
  simp only [h, if_true]

theorem getPool_some_shape {p p1 : bufferPool} {pageCount delta : Int} {k : Nat}
    (hlen : p.buffersBySize.length = p.countersBySize.length)
    (hg : getPool p pageCount delta = some (p1, k)) :
    pageCount = (k : Int) ∧ p1 = withBucket p k (bucketOrNew p k) (counterAt p k + delta) := by
  by_cases hneg : pageCount < 0
  · rw [getPool_neg p pageCount delta hneg] at hg
    cases hg
  · obtain ⟨n, rfl⟩ := Int.eq_ofNat_of_zero_le (by omega : 0 ≤ pageCount)
    rw [getPool_ofNat p n delta hlen] at hg
    cases hg
    exact ⟨rfl, rfl⟩

/-- C13. The buckets sequence and the counters sequence have equal length in
the empty pool, and on a pool where they have equal length every operation
keeps them so: `AllocBuffer` whenever it returns, `FreeBuffer` and `getPool`
with a non-negative index (both always return), `getPool` in general whenever
it returns, and `counters`.  Hence they are equal in every reachable pool. -/
theorem lengths_equal (pageSize : Int) (p : bufferPool) (h0 : 0 < pageSize)
    (h1 : pageSize < 9223372036854775808)
    (hlen : p.buffersBySize.length = p.countersBySize.length) :
    bufferPool.empty.buffersBySize.length = bufferPool.empty.countersBySize.length ∧
    (∀ size c b p1, AllocBuffer pageSize p size c = some (b, p1) →
      p1.buffersBySize.length = p1.countersBySize.length) ∧
    (∀ slice, ∃ p1, FreeBuffer pageSize p slice = some p1 ∧
      p1.buffersBySize.length = p1.countersBySize.length) ∧
    (∀ pageCount delta : Int, 0 ≤ pageCount →
      ∃ p1, getPool p pageCount delta = some (p1, pageCount.toNat) ∧
        p1.buffersBySize.length = p1.countersBySize.length) ∧
    (∀ (pageCount delta : Int) (p1 : bufferPool) (k : Nat),
      getPool p pageCount delta = some (p1, k) →
        p1.buffersBySize.length = p1.countersBySize.length) ∧
    (counters p).2.buffersBySize.length = (counters p).2.countersBySize.length ∧
    (∀ q, Reachable pageSize q → q.buffersBySize.length = q.countersBySize.length) := by
  refine ⟨rfl, ?_, ?_, ?_, ?_, ?_, ?_⟩
  · intro size c b p1 hal
    obtain ⟨k, sp1, _, rfl⟩ := AllocBuffer_some_shape hlen h0 h1 hal
    exact withBucket_length_eq p k sp1 _ hlen
  · intro slice
    rcases FreeBuffer_shape p slice hlen h0 with h | ⟨k, sp, _, _, h⟩
    · exact ⟨p, h, hlen⟩
    · exact ⟨_, h, withBucket_length_eq p k sp _ hlen⟩
  · intro pageCount delta hk
    obtain ⟨n, rfl⟩ := Int.eq_ofNat_of_zero_le hk
    exact ⟨_, getPool_ofNat p n delta hlen, withBucket_length_eq p n _ _ hlen⟩
  · intro pageCount delta p1 k hg
    obtain ⟨_, rfl⟩ := getPool_some_shape hlen hg
    exact withBucket_length_eq p k _ _ hlen
  · rw [counters_eq]
    exact hlen
  · intro q hq
    exact (hq.inv h0 h1).1

/-- C13 on a pool with two slots in each sequence. -/
theorem lengths_equal_witness :
    (0 : Int) < 4096 ∧ (4096 : Int) < 9223372036854775808 ∧
    (bufferPool.mk [none, some ⟨1, [.mk 0 4096 4096]⟩] [0, 0]).buffersBySize.length =
      (bufferPool.mk [none, some ⟨1, [.mk 0 4096 4096]⟩] [0, 0]).countersBySize.length ∧
    getPool ⟨[none, some ⟨1, [.mk 0 4096 4096]⟩], [0, 0]⟩ 3 1 =
      some (⟨[none, some ⟨1, [.mk 0 4096 4096]⟩, none, some ⟨3, []⟩], [0, 0, 0, 1]⟩, 3) ∧
    ∀ slice, ∃ p1, FreeBuffer 4096 ⟨[none, some ⟨1, [.mk 0 4096 4096]⟩], [0, 0]⟩ slice = some p1 ∧
      p1.buffersBySize.length = p1.countersBySize.length :=
  ⟨by decide, by decide, by decide, by decide,
    (lengths_equal 4096 ⟨[none, some ⟨1, [.mk 0 4096 4096]⟩], [0, 0]⟩ (by decide) (by decide)
      (by decide)).2.2.1⟩

/-! ## Index 0 -/

theorem allocCount_zero {pageSize : Int} (h0 : 0 < pageSize)
    (h1 : pageSize < 9223372036854775808) (ops : List Op) : allocCount pageSize 0 ops = 0 := by
  unfold allocCount
  rw [List.length_eq_zero, List.filter_eq_nil_iff]
  intro op _
  cases op with
  | alloc size c =>
    have := (AllocBuffer.pages_spec h0 h1 size).1
    simp only [Op.allocsTo, Nat.cast_zero, decide_eq_true_eq]
    omega
  | free slice => simp [Op.allocsTo]
  | drop k i => simp [Op.allocsTo]

theorem freeCount_zero (pageSize : Int) (ops : List Op) : freeCount pageSize 0 ops = 0 := by
  unfold freeCount
  rw [List.length_eq_zero, List.filter_eq_nil_iff]
  intro op _
  cases op <;> simp [Op.freesFrom]

/-- C14. In every reachable pool index 0 is unused: there is no bucket at index
0 (its slot is missing or nil) and, when the counters sequence is not empty,
`counters()[0] == 0`; `AllocBuffer` addresses a page count of at least one,
and so does `FreeBuffer` for every slice it does not filter out. -/
theorem index_zero_unused (pageSize : Int) (p : bufferPool) (h0 : 0 < pageSize)
    (h1 : pageSize < 9223372036854775808) (hp : Reachable pageSize p) :
    bucketAt p 0 = none ∧
    (p.buffersBySize[0]? = none ∨ p.buffersBySize[0]? = some none) ∧
    ((counters p).1 ≠ [] → (counters p).1[0]? = some 0) ∧
    (∀ size, 1 ≤ AllocBuffer.pages pageSize size) ∧
    (∀ slice : Slice, slice ≠ .nil → slice.cap ≠ 0 → (slice.cap : Int).tmod pageSize = 0 →
      1 ≤ (slice.cap : Int).tdiv pageSize) := by
  have hinv := hp.inv h0 h1
  have hb : bucketAt p 0 = none := by
    cases h : bucketAt p 0 with
    | none => rfl
    | some sp =>
      have := (hinv.2 0 sp h).2.1
      omega
  refine ⟨hb, ?_, ?_, fun size => (AllocBuffer.pages_spec h0 h1 size).1, ?_⟩
  · unfold bucketAt at hb
    cases h : p.buffersBySize[0]? with
    | none => exact Or.inl rfl
    | some slot =>
      rw [h] at hb
      cases slot with
      | none => exact Or.inr rfl
      | some sp => simp at hb
  · intro hne
    obtain ⟨ops, hops⟩ := hp
    obtain ⟨p1, hr, _, hc⟩ := run_counterAt h0 h1 ops (Inv.empty pageSize)
    rw [hops] at hr
    cases hr
    have h := hc 0
    rw [allocCount_zero h0 h1, freeCount_zero] at h
    rw [counters_eq] at hne ⊢
    have hl : 0 < p.countersBySize.length := List.length_pos.mpr hne
    unfold counterAt at h
    simp only [List.getD_eq_getElem?_getD, bufferPool.empty, List.getElem?_nil,
      Option.getD_none] at h
    rw [List.getElem?_eq_getElem hl] at h ⊢
    simp only [Option.getD_some] at h
    rw [h]
    rfl
  · intro slice hn hc hm
    rcases Slice.filtered_or_pages h0 slice with h | ⟨base, len, cap, k, rfl, hk, hcap⟩
    · rcases h with h | h | h
      · exact absurd h hn
      · exact absurd h hc
      · exact absurd hm h
    · simp only [Slice.cap]
      rw [Int.tdiv_eq_ediv (Int.ofNat_nonneg _) h0.le, hcap, Int.mul_ediv_cancel _ h0.ne']
      omega

/-- C14 after `alloc(100)`, `free`: counters `[0, 0]`, slot 0 nil. -/
theorem index_zero_unused_witness :
    (0 : Int) < 4096 ∧ (4096 : Int) < 9223372036854775808 ∧
    Reachable 4096 ⟨[none, some ⟨1, [.mk 0 4096 4096]⟩], [0, 0]⟩ ∧
    bucketAt ⟨[none, some ⟨1, [.mk 0 4096 4096]⟩], [0, 0]⟩ 0 = none ∧
    ((counters ⟨[none, some ⟨1, [.mk 0 4096 4096]⟩], [0, 0]⟩).1 ≠ [] →
      (counters ⟨[none, some ⟨1, [.mk 0 4096 4096]⟩], [0, 0]⟩).1[0]? = some 0) :=
  ⟨by decide, by decide, ⟨[.alloc 100 ⟨none, 0⟩, .free (.mk 0 100 4096)], by decide⟩,
    (index_zero_unused 4096 ⟨[none, some ⟨1, [.mk 0 4096 4096]⟩], [0, 0]⟩ (by decide) (by decide)
      ⟨[.alloc 100 ⟨none, 0⟩, .free (.mk 0 100 4096)], by decide⟩).1,
    (index_zero_unused 4096 ⟨[none, some ⟨1, [.mk 0 4096 4096]⟩], [0, 0]⟩ (by decide) (by decide)
      ⟨[.alloc 100 ⟨none, 0⟩, .free (.mk 0 100 4096)], by decide⟩).2.2.1⟩

/-! ## `getPool` in full -/

/-- The growth loop after at most `f` iterations: it has appended
`min f (k + 1 - len)` slots to each sequence. -/
theorem getPool.loop_fuel (k : Nat) : ∀ (f : Nat) (p : bufferPool),
    getPool.loop (k : Int) f p =
      ⟨p.buffersBySize ++ List.replicate (min f (k + 1 - p.buffersBySize.length)) none,
       p.countersBySize ++ List.replicate (min f (k + 1 - p.buffersBySize.length)) 0⟩ := by
  intro f
  induction f with
  | zero => intro p; simp [getPool.loop]
  | succ f ih =>
    intro p
    by_cases hc : (p.buffersBySize.length : Int) ≤ (k : Int)
    · rw [getPool.loop, if_pos hc, ih]
      have hm : min (f + 1) (k + 1 - p.buffersBySize.length) =
          min f (k + 1 - (p.buffersBySize ++ [none]).length) + 1 := by
        simp only [List.length_append, List.length_singleton]
        omega
      rw [hm, List.replicate_succ, List.replicate_succ]
      simp
    · rw [getPool.loop, if_neg hc]
      have hm : min (f + 1) (k + 1 - p.buffersBySize.length) = 0 := by omega
      rw [hm]
      simp

/-- C15. On a pool whose two sequences have the same length `n`, and for
`k ≥ 0`, `getPool(k, delta)` returns: its growth loop exits after exactly
`max(0, k + 1 - n)` iterations, both sequences end with length
`max(n, k + 1)`, every added slot other than `k` holds a nil bucket and the
counter 0, bucket `k` is present (a new empty one minting for `k` if it was
absent, the old one otherwise), counter `k` is its old value (0 if the slot is
new) plus `delta`, and every other slot that existed is unchanged. -/
theorem getPool_spec (p : bufferPool) (k delta : Int) (hk : 0 ≤ k)
    (hlen : p.buffersBySize.length = p.countersBySize.length) :
    (getPool.grow k p = getPool.loop k (k.toNat + 1 - p.buffersBySize.length) p ∧
      (∀ f, f < k.toNat + 1 - p.buffersBySize.length →
        ((getPool.loop k f p).buffersBySize.length : Int) ≤ k) ∧
      ¬ (((getPool.loop k (k.toNat + 1 - p.buffersBySize.length) p).buffersBySize.length : Int)
        ≤ k)) ∧
    ∃ p1, getPool p k delta = some (p1, k.toNat) ∧
      p1.buffersBySize.length = max p.buffersBySize.length (k.toNat + 1) ∧
      p1.countersBySize.length = max p.buffersBySize.length (k.toNat + 1) ∧
      (∀ j, p.buffersBySize.length ≤ j → j < k.toNat →
        p1.buffersBySize[j]? = some none ∧ p1.countersBySize[j]? = some 0) ∧
      (bucketAt p k.toNat = none → bucketAt p1 k.toNat = some ⟨k, []⟩) ∧
      (∀ sp, bucketAt p k.toNat = some sp → bucketAt p1 k.toNat = some sp) ∧
      p1.countersBySize[k.toNat]? = some (counterAt p k.toNat + delta) ∧
      (∀ j, j < p.buffersBySize.length → j ≠ k.toNat →
        p1.buffersBySize[j]? = p.buffersBySize[j]? ∧
        p1.countersBySize[j]? = p.countersBySize[j]?) := by
  obtain ⟨n, rfl⟩ := Int.eq_ofNat_of_zero_le hk
  simp only [Int.toNat_ofNat]
  refine ⟨⟨?_, ?_, ?_⟩, ?_⟩
  · unfold getPool.grow
    have : ((n : Int) + 1 - (p.buffersBySize.length : Int)).toNat =
        n + 1 - p.buffersBySize.length := by omega
    rw [this]
  · intro f hf
    rw [getPool.loop_fuel]
    simp only [List.length_append, List.length_replicate]
    push_cast
    omega
  · rw [getPool.loop_fuel]
    simp only [List.length_append, List.length_replicate]
    push_cast
    omega
  · refine ⟨_, getPool_ofNat p n delta hlen, ?_, ?_, ?_, ?_, ?_, ?_, ?_⟩
    · unfold withBucket
      simp only [length_pad_set]
    · unfold withBucket
      simp only [length_pad_set, hlen]
    · intro j hj1 hj2
      unfold withBucket
      simp only [getElem?_pad_set]
      have h1 : j ≠ n := by omega
      have h2 : ¬ j < p.buffersBySize.length := by omega
      have h3 : ¬ j < p.countersBySize.length := by omega
      have h4 : j < n + 1 := by omega
      simp only [h1, h2, h3, h4, if_false, if_true, and_self]
    · intro hb
      rw [bucketAt_withBucket, if_pos rfl]
      unfold bucketOrNew
      rw [hb]
      rfl
    · intro sp hb
      rw [bucketAt_withBucket, if_pos rfl]
      unfold bucketOrNew
      rw [hb]
      rfl
    · exact getElem?_countersBySize_withBucket_self p n _ _
    · intro j hj1 hj2
      unfold withBucket
      simp only [getElem?_pad_set]
      have h3 : j < p.countersBySize.length := by omega
      simp only [hj2, hj1, h3, if_false, if_true, and_self]

/-- C15 for `getPool(4, -1)` on a pool with two slots: three iterations. -/
theorem getPool_spec_witness :
    (0 : Int) ≤ 4 ∧
    (bufferPool.mk [none, some ⟨1, []⟩] [0, 5]).buffersBySize.length =
      (bufferPool.mk [none, some ⟨1, []⟩] [0, 5]).countersBySize.length ∧
    getPool ⟨[none, some ⟨1, []⟩], [0, 5]⟩ 4 (-1) =
      some (⟨[none, some ⟨1, []⟩, none, none, some ⟨4, []⟩], [0, 5, 0, 0, -1]⟩, 4) ∧
    getPool.grow 4 ⟨[none, some ⟨1, []⟩], [0, 5]⟩ =
      getPool.loop 4 ((4 : Int).toNat + 1 -
        (bufferPool.mk [none, some ⟨1, []⟩] [0, 5]).buffersBySize.length)
        ⟨[none, some ⟨1, []⟩], [0, 5]⟩ :=
  ⟨by decide, by decide, by decide,
    (getPool_spec ⟨[none, some ⟨1, []⟩], [0, 5]⟩ 4 (-1) (by decide) (by decide)).1.1⟩

/-! ## Grow-only structure -/

theorem length_buffersBySize_withBucket (p : bufferPool) (k : Nat) (sp : SyncPool) (c : Int) :
    (withBucket p k sp c).buffersBySize.length = max p.buffersBySize.length (k + 1) := by
  unfold withBucket
  simp only [length_pad_set]

/-- One event never shortens a sequence and never removes a bucket. -/
theorem step_grows {pageSize : Int} {p : bufferPool} (hinv : Inv pageSize p)
    (h0 : 0 < pageSize) (h1 : pageSize < 9223372036854775808) (op : Op) :
    ∃ p1, step pageSize p op = some p1 ∧ Inv pageSize p1 ∧
      p.buffersBySize.length ≤ p1.buffersBySize.length ∧
      p.countersBySize.length ≤ p1.countersBySize.length ∧
      ∀ k, (bucketAt p k).isSome → (bucketAt p1 k).isSome := by
  obtain ⟨p1, hs, hi, hshape⟩ := step_cases hinv h0 h1 op
  refine ⟨p1, hs, hi, ?_⟩
  rcases hshape with rfl | ⟨k, i, _, rfl⟩ | ⟨k, sp, c, rfl, _, _⟩
  · exact ⟨le_refl _, le_refl _, fun _ h => h⟩
  · refine ⟨by rw [(length_dropItem p k i).1], by rw [(length_dropItem p k i).2], ?_⟩
    intro j hj
    rw [bucketAt_dropItem]
    by_cases hjk : j = k
    · subst hjk
      rw [if_pos rfl]
      cases hb : bucketAt p j with
      | none => rw [hb] at hj; cases hj
      | some sp0 => rfl
    · rw [if_neg hjk]
      exact hj
  · refine ⟨?_, ?_, ?_⟩
    · rw [length_buffersBySize_withBucket]
      exact le_max_left _ _
    · rw [length_countersBySize_withBucket]
      exact le_max_left _ _
    · intro j hj
      rw [bucketAt_withBucket]
      by_cases hjk : j = k
      · rw [if_pos hjk]
        rfl
      · rw [if_neg hjk]
        exact hj

theorem run_grows {pageSize : Int} (h0 : 0 < pageSize) (h1 : pageSize < 9223372036854775808)
    (ops : List Op) : ∀ {p : bufferPool}, Inv pageSize p →
    ∃ p1, run pageSize p ops = some p1 ∧ Inv pageSize p1 ∧
      p.buffersBySize.length ≤ p1.buffersBySize.length ∧
      p.countersBySize.length ≤ p1.countersBySize.length ∧
      ∀ k, (bucketAt p k).isSome → (bucketAt p1 k).isSome := by
  induction ops with
  | nil => intro p hinv; exact ⟨p, rfl, hinv, le_refl _, le_refl _, fun _ h => h⟩
  | cons op ops ih =>
    intro p hinv
    obtain ⟨p1, hs, hi, hb, hc, hk⟩ := step_grows hinv h0 h1 op
    obtain ⟨p2, hr, hi2, hb2, hc2, hk2⟩ := ih hi
    exact ⟨p2, by simp [run, hs, hr], hi2, le_trans hb hb2, le_trans hc hc2,
      fun k h => hk2 k (hk k h)⟩

/-- C16. From every reachable pool, any further sequence of events (calls of
`AllocBuffer` and `FreeBuffer`, the runtime dropping stored items) runs to a
pool whose buckets and counters sequences are at least as long, and in which
every index that held a bucket still holds one, minting for the same page
count; `counters` leaves the pool as it is. -/
theorem grow_only (pageSize : Int) (p : bufferPool) (ops : List Op) (h0 : 0 < pageSize)
    (h1 : pageSize < 9223372036854775808) (hp : Reachable pageSize p) :
    (counters p).2 = p ∧
    ∃ p1, run pageSize p ops = some p1 ∧
      p.buffersBySize.length ≤ p1.buffersBySize.length ∧
      p.countersBySize.length ≤ p1.countersBySize.length ∧
      ∀ k sp, bucketAt p k = some sp →
        ∃ sp1, bucketAt p1 k = some sp1 ∧ sp1.pageCount = sp.pageCount := by
  refine ⟨by rw [counters_eq], ?_⟩
  have hinv := hp.inv h0 h1
  obtain ⟨p1, hr, hi, hb, hc, hk⟩ := run_grows h0 h1 ops hinv
  refine ⟨p1, hr, hb, hc, ?_⟩
  intro k sp hsp
  have h := hk k (by rw [hsp]; rfl)
  cases hb1 : bucketAt p1 k with
  | none => rw [hb1] at h; cases h
  | some sp1 =>
    refine ⟨sp1, rfl, ?_⟩
    rw [(hi.2 k sp1 hb1).1, (hinv.2 k sp hsp).1]

/-- C16 from the pool left by `alloc(100)`, `free`, followed by the taking of
the stored page and a filtered release. -/
theorem grow_only_witness :
    (0 : Int) < 4096 ∧ (4096 : Int) < 9223372036854775808 ∧
    Reachable 4096 ⟨[none, some ⟨1, [.mk 0 4096 4096]⟩], [0, 0]⟩ ∧
    run 4096 ⟨[none, some ⟨1, [.mk 0 4096 4096]⟩], [0, 0]⟩
        [.alloc 10 ⟨some 0, 1⟩, .free (.mk 5 5 5)] =
      some ⟨[none, some ⟨1, []⟩], [0, 1]⟩ ∧
    ((counters ⟨[none, some ⟨1, [.mk 0 4096 4096]⟩], [0, 0]⟩).2 =
        ⟨[none, some ⟨1, [.mk 0 4096 4096]⟩], [0, 0]⟩ ∧
      ∃ p1, run 4096 ⟨[none, some ⟨1, [.mk 0 4096 4096]⟩], [0, 0]⟩
          [.alloc 10 ⟨some 0, 1⟩, .free (.mk 5 5 5)] = some p1 ∧
        (bufferPool.mk [none, some ⟨1, [.mk 0 4096 4096]⟩] [0, 0]).buffersBySize.length ≤
          p1.buffersBySize.length ∧
        (bufferPool.mk [none, some ⟨1, [.mk 0 4096 4096]⟩] [0, 0]).countersBySize.length ≤
          p1.countersBySize.length ∧
        ∀ k sp, bucketAt ⟨[none, some ⟨1, [.mk 0 4096 4096]⟩], [0, 0]⟩ k = some sp →
          ∃ sp1, bucketAt p1 k = some sp1 ∧ sp1.pageCount = sp.pageCount) :=
  ⟨by decide, by decide, ⟨[.alloc 100 ⟨none, 0⟩, .free (.mk 0 100 4096)], by decide⟩, by decide,
    grow_only 4096 ⟨[none, some ⟨1, [.mk 0 4096 4096]⟩], [0, 0]⟩
      [.alloc 10 ⟨some 0, 1⟩, .free (.mk 5 5 5)] (by decide) (by decide)
      ⟨[.alloc 100 ⟨none, 0⟩, .free (.mk 0 100 4096)], by decide⟩⟩

/-! ## Negative counters and double release -/

/-- C17. Counters can go negative and a double release is not detected. With
`pageSize = 4096` on the empty pool: `b = alloc(100)`, `free(b)`, `free(b)`
leaves `counters()[1] == -1` with `b`, at full length, stored twice in bucket
1, and both copies are then handed out by two further allocations; the
release of any foreign slice of capacity 4096 leaves `counters()[1] == -1`. -/
theorem double_free_negative_counter :
    AllocBuffer 4096 bufferPool.empty 100 ⟨none, 0⟩ =
      some (.mk 0 100 4096, ⟨[none, some ⟨1, []⟩], [0, 1]⟩) ∧
    run 4096 ⟨[none, some ⟨1, []⟩], [0, 1]⟩ [.free (.mk 0 100 4096), .free (.mk 0 100 4096)] =
      some ⟨[none, some ⟨1, [.mk 0 4096 4096, .mk 0 4096 4096]⟩], [0, -1]⟩ ∧
    (counters ⟨[none, some ⟨1, [.mk 0 4096 4096, .mk 0 4096 4096]⟩], [0, -1]⟩).1[1]? = some (-1) ∧
    AllocBuffer 4096 ⟨[none, some ⟨1, [.mk 0 4096 4096, .mk 0 4096 4096]⟩], [0, -1]⟩ 100
        ⟨some 0, 1⟩ =
      some (.mk 0 100 4096, ⟨[none, some ⟨1, [.mk 0 4096 4096]⟩], [0, 0]⟩) ∧
    AllocBuffer 4096 ⟨[none, some ⟨1, [.mk 0 4096 4096]⟩], [0, 0]⟩ 100 ⟨some 0, 2⟩ =
      some (.mk 0 100 4096, ⟨[none, some ⟨1, []⟩], [0, 1]⟩) ∧
    (∀ base len : Nat, ∃ p1, FreeBuffer 4096 bufferPool.empty (.mk base len 4096) = some p1 ∧
      (counters p1).1[1]? = some (-1) ∧
      bucketAt p1 1 = some ⟨1, [.mk base 4096 4096]⟩) := by
  refine ⟨by decide, by decide, by decide, by decide, by decide, ?_⟩
  intro base len
  refine ⟨_, FreeBuffer_eq 4096 bufferPool.empty base len 4096 1 rfl (by decide) (by decide)
    (by decide), ?_, ?_⟩
  · rw [counters_eq, getElem?_countersBySize_withBucket_self]
    rfl
  · rw [bucketAt_withBucket, if_pos rfl]
    rfl

/-! ## Absence of panics -/

/-- After the growth loop the index `k` is within both sequences. -/
theorem getPool.grow_bounds (p : bufferPool) (k : Nat)
    (hlen : p.buffersBySize.length = p.countersBySize.length) :
    k < (getPool.grow (k : Int) p).buffersBySize.length ∧
    k < (getPool.grow (k : Int) p).countersBySize.length := by
  rw [getPool.grow_ofNat]
  simp only [List.length_append, List.length_replicate]
  omega

theorem Slice.upTo_cap (slice : Slice) : ∃ s1, slice.upTo (slice.cap : Int) = some s1 := by
  cases slice with
  | nil => exact ⟨.nil, by simp [Slice.upTo, Slice.cap]⟩
  | mk base len cap => exact ⟨.mk base cap cap, by simp [Slice.upTo, Slice.cap]⟩

/-- C18. In every reachable pool neither `AllocBuffer` (any `uint32` size, any
outcome of `sync.Pool.Get`) nor `FreeBuffer` (any slice, nil and foreign ones
included) panics: the index passed to `getPool` is non-negative and, after
the growth loop, within both sequences; the buffer `b` obtained from the
bucket has `size ≤ cap(b)`, so `b[:size]` is valid; and `slice[:cap(slice)]`
is valid for every slice. -/
theorem no_panic (pageSize : Int) (p : bufferPool) (h0 : 0 < pageSize)
    (h1 : pageSize < 9223372036854775808) (hp : Reachable pageSize p) :
    (∀ size c, ∃ b p1, AllocBuffer pageSize p size c = some (b, p1)) ∧
    (∀ slice, ∃ p1, FreeBuffer pageSize p slice = some p1) ∧
    (∀ size, 0 ≤ AllocBuffer.pages pageSize size ∧
      (AllocBuffer.pages pageSize size).toNat <
        (getPool.grow (AllocBuffer.pages pageSize size) p).buffersBySize.length ∧
      (AllocBuffer.pages pageSize size).toNat <
        (getPool.grow (AllocBuffer.pages pageSize size) p).countersBySize.length) ∧
    (∀ slice : Slice, slice ≠ .nil → slice.cap ≠ 0 → (slice.cap : Int).tmod pageSize = 0 →
      0 ≤ (slice.cap : Int).tdiv pageSize ∧
      ((slice.cap : Int).tdiv pageSize).toNat <
        (getPool.grow ((slice.cap : Int).tdiv pageSize) p).buffersBySize.length ∧
      ((slice.cap : Int).tdiv pageSize).toNat <
        (getPool.grow ((slice.cap : Int).tdiv pageSize) p).countersBySize.length) ∧
    (∀ (size : uint32) (c : GetChoice) (p1 : bufferPool) (k : Nat) (sp sp1 : SyncPool)
      (b : Slice), getPool p (AllocBuffer.pages pageSize size) 1 = some (p1, k) →
      p1.buffersBySize[k]? = some (some sp) → sp.Get pageSize c = some (b, sp1) →
      (size.val : Int) ≤ (b.cap : Int) ∧ ∃ r, b.upTo (size.val : Int) = some r) ∧
    (∀ slice : Slice, ∃ s1, slice.upTo (slice.cap : Int) = some s1) := by
  have hinv := hp.inv h0 h1
  refine ⟨?_, ?_, ?_, ?_, ?_, Slice.upTo_cap⟩
  · intro size c
    obtain ⟨b, p1, hal, _⟩ := hinv.AllocBuffer h0 h1 size c
    exact ⟨b, p1, hal⟩
  · intro slice
    obtain ⟨p1, hf, _⟩ := hinv.FreeBuffer h0 slice
    exact ⟨p1, hf⟩
  · intro size
    obtain ⟨k, _, hk⟩ := AllocBuffer.pages_ofNat h0 h1 size
    rw [hk, Int.toNat_ofNat]
    exact ⟨Int.ofNat_nonneg _, getPool.grow_bounds p k hinv.1⟩
  · intro slice hn hc hm
    rcases Slice.filtered_or_pages h0 slice with h | ⟨base, len, cap, k, rfl, hk, hcap⟩
    · rcases h with h | h | h
      · exact absurd h hn
      · exact absurd h hc
      · exact absurd hm h
    · have hd : ((Slice.mk base len cap).cap : Int).tdiv pageSize = (k : Int) := by
        simp only [Slice.cap]
        rw [Int.tdiv_eq_ediv (Int.ofNat_nonneg _) h0.le, hcap, Int.mul_ediv_cancel _ h0.ne']
      rw [hd, Int.toNat_ofNat]
      exact ⟨Int.ofNat_nonneg _, getPool.grow_bounds p k hinv.1⟩
  · intro size c p1 k sp sp1 b hg hsp hget
    obtain ⟨hk, rfl⟩ := getPool_some_shape hinv.1 hg
    rw [getElem?_withBucket_self] at hsp
    cases hsp
    obtain ⟨_, hle, _⟩ := AllocBuffer.pages_spec h0 h1 size
    have hhi := AllocBuffer.pages_mul_lt h0 h1 size
    rw [hk] at hle hhi
    have hlo : 0 ≤ (k : Int) * pageSize := le_trans (Int.ofNat_nonneg _) hle
    obtain ⟨hpc, hitems⟩ := hinv.bucketOrNew k
    obtain ⟨b2, sp2, hget2, hcap, _, _, _⟩ :=
      SyncPool.Get_spec pageSize (bucketOrNew p k) c k hpc hitems hlo hhi
    rw [hget] at hget2
    cases hget2
    have hsz : (size.val : Int) ≤ (b.cap : Int) := by rw [hcap]; exact hle
    refine ⟨hsz, ?_⟩
    cases b with
    | nil => exact ⟨.nil, by simp only [Slice.upTo]; rw [if_pos ⟨Int.ofNat_nonneg _, hsz⟩]⟩
    | mk base len cap =>
      exact ⟨.mk base size.val cap, by
        simp only [Slice.upTo, Int.toNat_ofNat]
        rw [if_pos ⟨Int.ofNat_nonneg _, hsz⟩]⟩

/-- C18 on the pool left by `alloc(100)`, `free`. -/
theorem no_panic_witness :
    (0 : Int) < 4096 ∧ (4096 : Int) < 9223372036854775808 ∧
    Reachable 4096 ⟨[none, some ⟨1, [.mk 0 4096 4096]⟩], [0, 0]⟩ ∧
    (∀ size c, ∃ b p1,
      AllocBuffer 4096 ⟨[none, some ⟨1, [.mk 0 4096 4096]⟩], [0, 0]⟩ size c = some (b, p1)) ∧
    (∀ slice, ∃ p1,
      FreeBuffer 4096 ⟨[none, some ⟨1, [.mk 0 4096 4096]⟩], [0, 0]⟩ slice = some p1) :=
  ⟨by decide, by decide, ⟨[.alloc 100 ⟨none, 0⟩, .free (.mk 0 100 4096)], by decide⟩,
    (no_panic 4096 ⟨[none, some ⟨1, [.mk 0 4096 4096]⟩], [0, 0]⟩ (by decide) (by decide)
      ⟨[.alloc 100 ⟨none, 0⟩, .free (.mk 0 100 4096)], by decide⟩).1,
    (no_panic 4096 ⟨[none, some ⟨1, [.mk 0 4096 4096]⟩], [0, 0]⟩ (by decide) (by decide)
      ⟨[.alloc 100 ⟨none, 0⟩, .free (.mk 0 100 4096)], by decide⟩).2.1⟩

/-! ## `getPool` on an arbitrary pool, and the order of two calls -/

theorem getElem?_append_replicate {α : Type} (l : List α) (m j : Nat) (a : α) :
    (l ++ List.replicate m a)[j]? =
      if j < l.length then l[j]? else if j < l.length + m then some a else none := by
  by_cases hl : j < l.length
  · rw [if_pos hl]
    exact List.getElem?_append_left hl
  · rw [if_neg hl, List.getElem?_append_right (by omega), List.getElem?_replicate]
    by_cases hm : j < l.length + m
    · rw [if_pos hm, if_pos (by omega)]
    · rw [if_neg hm, if_neg (by omega)]

/-- `getPool(k, delta)` for `k ≥ 0` on any pool, equal lengths or not: the loop
pads both sequences by the number of slots the buckets sequence lacks, and
the call panics exactly when the counters sequence is then still too short. -/
theorem getPool_ofNat_general (p : bufferPool) (k : Nat) (delta : Int) :
    getPool p (k : Int) delta =
      if k < p.countersBySize.length + (k + 1 - p.buffersBySize.length) then
        some (⟨(p.buffersBySize ++ List.replicate (k + 1 - p.buffersBySize.length) none).set k
            (some (bucketOrNew p k)),
          (p.countersBySize ++ List.replicate (k + 1 - p.buffersBySize.length) 0).set k
            (counterAt p k + delta)⟩, k)
      else none := by
  unfold getPool bucketOrNew
  rw [getPool.grow_ofNat]
  have hneg : ¬ ((k : Int) < 0) := by omega
  simp only [hneg, if_false, Int.toNat_ofNat, bucketAt, counterAt, List.getD_eq_getElem?_getD]
  have hb : (p.buffersBySize ++ List.replicate (k + 1 - p.buffersBySize.length) none)[k]? =
      some ((p.buffersBySize[k]?).join) := by
    rw [getElem?_append_replicate]
    by_cases hk : k < p.buffersBySize.length
    · rw [if_pos hk, List.getElem?_eq_getElem hk]
      rfl
    · rw [if_neg hk, if_pos (by omega), List.getElem?_eq_none (by omega)]
      rfl
  rw [hb]
  dsimp only
  by_cases hc : k < p.countersBySize.length + (k + 1 - p.buffersBySize.length)
  · rw [if_pos hc]
    have hcs : (p.countersBySize ++
        List.replicate (k + 1 - p.buffersBySize.length) (0 : Int))[k]? =
        some ((p.countersBySize[k]?).getD 0) := by
      rw [getElem?_append_replicate]
      by_cases hk : k < p.countersBySize.length
      · rw [if_pos hk, List.getElem?_eq_getElem hk]
        rfl
      · rw [if_neg hk, if_pos hc, List.getElem?_eq_none (by omega)]
        rfl
    rw [hcs]
    dsimp only
    cases hj : (p.buffersBySize[k]?).join with
    | none => rfl
    | some sp =>
      simp only [Option.getD_some]
      congr 3
      refine (set_eq_self_of_getElem? ?_).symm
      rw [hb, hj]
  · rw [if_neg hc]
    have hcs : (p.countersBySize ++
        List.replicate (k + 1 - p.buffersBySize.length) (0 : Int))[k]? = none := by
      rw [getElem?_append_replicate, if_neg (by omega), if_neg hc]
    rw [hcs]

/-- A successful `getPool(k, delta)` seen through `counterAt` and bucket
presence: it adds `delta` at `k`, makes bucket `k` present, and pads. -/
theorem getPool_view (p : bufferPool) (k : Nat) (delta : Int)
    (hc : k < p.countersBySize.length + (k + 1 - p.buffersBySize.length)) :
    ∃ p1, getPool p (k : Int) delta = some (p1, k) ∧
      p1.countersBySize.length = p.countersBySize.length + (k + 1 - p.buffersBySize.length) ∧
      p1.buffersBySize.length = p.buffersBySize.length + (k + 1 - p.buffersBySize.length) ∧
      (∀ j, counterAt p1 j = counterAt p j + if j = k then delta else 0) ∧
      (∀ j, (bucketAt p1 j).isSome = (decide (j = k) || (bucketAt p j).isSome)) := by
  refine ⟨_, by rw [getPool_ofNat_general, if_pos hc], ?_, ?_, ?_, ?_⟩
  · simp only [List.length_set, List.length_append, List.length_replicate]
  · simp only [List.length_set, List.length_append, List.length_replicate]
  · intro j
    unfold counterAt
    simp only [List.getD_eq_getElem?_getD, List.getElem?_set, getElem?_append_replicate,
      List.length_append, List.length_replicate]
    by_cases hj : j = k
    · subst hj
      simp only [if_true, hc]
      rfl
    · have hj2 : ¬ k = j := fun h => hj h.symm
      simp only [hj, hj2, if_false, Int.add_zero]
      by_cases hl : j < p.countersBySize.length
      · rw [if_pos hl]
      · rw [if_neg hl, List.getElem?_eq_none (by omega)]
        by_cases hm : j < p.countersBySize.length + (k + 1 - p.buffersBySize.length)
        · rw [if_pos hm]
          rfl
        · rw [if_neg hm]
  · intro j
    unfold bucketAt
    simp only [List.getElem?_set, getElem?_append_replicate,
      List.length_append, List.length_replicate]
    by_cases hj : j = k
    · subst hj
      have : j < p.buffersBySize.length + (j + 1 - p.buffersBySize.length) := by omega
      simp [this]
    · have hj2 : ¬ k = j := fun h => hj h.symm
      simp only [hj, hj2, if_false, decide_False, Bool.false_or]
      by_cases hl : j < p.buffersBySize.length
      · rw [if_pos hl]
      · rw [if_neg hl, List.getElem?_eq_none (by omega)]
        by_cases hm : j < p.buffersBySize.length + (k + 1 - p.buffersBySize.length)
        · rw [if_pos hm]
          rfl
        · rw [if_neg hm]

theorem isSome_bucketAt (p : bufferPool) (j : Nat) :
    (bucketAt p j).isSome = (((p.buffersBySize.map Option.isSome)[j]?).getD false) := by
  unfold bucketAt
  rw [List.getElem?_map]
  cases p.buffersBySize[j]? with
  | none => rfl
  | some slot => cases slot <;> rfl

theorem list_ext_getD {α : Type} (d : α) {l1 l2 : List α} (hl : l1.length = l2.length)
    (h : ∀ j : Nat, (l1[j]?).getD d = (l2[j]?).getD d) : l1 = l2 := by
  apply List.ext_getElem?
  intro j
  by_cases hj : j < l1.length
  · have hj2 : j < l2.length := hl ▸ hj
    have := h j
    rw [List.getElem?_eq_getElem hj, List.getElem?_eq_getElem hj2] at this ⊢
    simpa using this
  · rw [List.getElem?_eq_none (by omega), List.getElem?_eq_none (by omega)]

theorem observe_eq_of_view {p q : bufferPool}
    (h1 : p.countersBySize.length = q.countersBySize.length)
    (h2 : p.buffersBySize.length = q.buffersBySize.length)
    (h3 : ∀ j, counterAt p j = counterAt q j)
    (h4 : ∀ j, (bucketAt p j).isSome = (bucketAt q j).isSome) : observe p = observe q := by
  unfold observe
  refine Prod.ext ?_ ?_
  · refine list_ext_getD 0 h1 ?_
    intro j
    have := h3 j
    simpa [counterAt] using this
  · refine list_ext_getD false (by simp [h2]) ?_
    intro j
    have := h4 j
    rw [isSome_bucketAt, isSome_bucketAt] at this
    exact this

theorem view_of_observe_eq {p q : bufferPool} (h : observe p = observe q) :
    p.countersBySize.length = q.countersBySize.length ∧
    p.buffersBySize.length = q.buffersBySize.length ∧
    (∀ j, counterAt p j = counterAt q j) ∧
    (∀ j, (bucketAt p j).isSome = (bucketAt q j).isSome) := by
  unfold observe at h
  have hc : p.countersBySize = q.countersBySize := congrArg Prod.fst h
  have hb : p.buffersBySize.map Option.isSome = q.buffersBySize.map Option.isSome :=
    congrArg Prod.snd h
  refine ⟨by rw [hc], ?_, ?_, ?_⟩
  · have := congrArg List.length hb
    simpa using this
  · intro j
    unfold counterAt
    rw [hc]
  · intro j
    rw [isSome_bucketAt, isSome_bucketAt, hb]

theorem getPool_congr {p q : bufferPool} (h : observe p = observe q) (k delta : Int) :
    (getPool p k delta = none ∧ getPool q k delta = none) ∨
    ∃ p1 q1 n, getPool p k delta = some (p1, n) ∧ getPool q k delta = some (q1, n) ∧
      observe p1 = observe q1 := by
  obtain ⟨hc, hb, hv, hs⟩ := view_of_observe_eq h
  by_cases hneg : k < 0
  · exact Or.inl ⟨getPool_neg p k delta hneg, getPool_neg q k delta hneg⟩
  · obtain ⟨n, rfl⟩ := Int.eq_ofNat_of_zero_le (by omega : 0 ≤ k)
    by_cases hok : n < p.countersBySize.length + (n + 1 - p.buffersBySize.length)
    · obtain ⟨p1, hp1, a1, a2, a3, a4⟩ := getPool_view p n delta hok
      obtain ⟨q1, hq1, b1, b2, b3, b4⟩ := getPool_view q n delta (by rw [← hc, ← hb]; exact hok)
      refine Or.inr ⟨p1, q1, n, hp1, hq1, observe_eq_of_view ?_ ?_ ?_ ?_⟩
      · rw [a1, b1, hc, hb]
      · rw [a2, b2, hb]
      · intro j
        rw [a3, b3, hv]
      · intro j
        rw [a4, b4, hs]
    · refine Or.inl ⟨?_, ?_⟩
      · rw [getPool_ofNat_general, if_neg hok]
      · rw [getPool_ofNat_general, if_neg (by rw [← hc, ← hb]; exact hok)]

theorem getPools_congr (l : List (Int × Int)) : ∀ {p q : bufferPool}, observe p = observe q →
    (getPools p l).map observe = (getPools q l).map observe := by
  induction l with
  | nil => intro p q h; simp [getPools, h]
  | cons x rest ih =>
    intro p q h
    obtain ⟨k, delta⟩ := x
    rcases getPool_congr h k delta with ⟨hp, hq⟩ | ⟨p1, q1, n, hp, hq, ho⟩
    · simp [getPools, hp, hq]
    · simp only [getPools, hp, hq]
      exact ih ho

/-- Two `getPool` calls with non-negative indices in a row, seen through
`counterAt` and bucket presence. -/
theorem getPools_two_view (p : bufferPool) (k1 k2 : Nat) (d1 d2 : Int) :
    (¬ (k1 < p.countersBySize.length + (k1 + 1 - p.buffersBySize.length) ∧
        k2 < p.countersBySize.length + (k1 + 1 - p.buffersBySize.length) +
          (k2 + 1 - (p.buffersBySize.length + (k1 + 1 - p.buffersBySize.length)))) →
      getPools p [((k1 : Int), d1), ((k2 : Int), d2)] = none) ∧
    (k1 < p.countersBySize.length + (k1 + 1 - p.buffersBySize.length) ∧
        k2 < p.countersBySize.length + (k1 + 1 - p.buffersBySize.length) +
          (k2 + 1 - (p.buffersBySize.length + (k1 + 1 - p.buffersBySize.length))) →
      ∃ p2, getPools p [((k1 : Int), d1), ((k2 : Int), d2)] = some p2 ∧
        p2.countersBySize.length = p.countersBySize.length +
          (k1 + 1 - p.buffersBySize.length) +
          (k2 + 1 - (p.buffersBySize.length + (k1 + 1 - p.buffersBySize.length))) ∧
        p2.buffersBySize.length = p.buffersBySize.length + (k1 + 1 - p.buffersBySize.length) +
          (k2 + 1 - (p.buffersBySize.length + (k1 + 1 - p.buffersBySize.length))) ∧
        (∀ j, counterAt p2 j =
          counterAt p j + (if j = k1 then d1 else 0) + (if j = k2 then d2 else 0)) ∧
        (∀ j, (bucketAt p2 j).isSome =
          (decide (j = k2) || (decide (j = k1) || (bucketAt p j).isSome)))) := by
  by_cases h1 : k1 < p.countersBySize.length + (k1 + 1 - p.buffersBySize.length)
  · obtain ⟨p1, hp1, a1, a2, a3, a4⟩ := getPool_view p k1 d1 h1
    by_cases h2 : k2 < p.countersBySize.length + (k1 + 1 - p.buffersBySize.length) +
        (k2 + 1 - (p.buffersBySize.length + (k1 + 1 - p.buffersBySize.length)))
    · have h2p : k2 < p1.countersBySize.length + (k2 + 1 - p1.buffersBySize.length) := by
        rw [a1, a2]
        exact h2
      obtain ⟨p2, hp2, b1, b2, b3, b4⟩ := getPool_view p1 k2 d2 h2p
      refine ⟨fun hn => absurd ⟨h1, h2⟩ hn, fun _ => ⟨p2, ?_, ?_, ?_, ?_, ?_⟩⟩
      · simp only [getPools, hp1, hp2]
      · rw [b1, a1, a2]
      · rw [b2, a2]
      · intro j
        rw [b3, a3]
      · intro j
        rw [b4, a4]
    · have h2p : ¬ k2 < p1.countersBySize.length + (k2 + 1 - p1.buffersBySize.length) := by
        rw [a1, a2]
        exact h2
      refine ⟨fun _ => ?_, fun hn => absurd hn.2 h2⟩
      simp only [getPools, hp1]
      rw [getPool_ofNat_general, if_neg h2p]
  · refine ⟨fun _ => ?_, fun hn => absurd hn.1 h1⟩
    simp only [getPools]
    rw [getPool_ofNat_general, if_neg h1]

/-- Two `getPool` calls in either order show the same counters and the same
present buckets, or panic in both orders. -/
theorem getPools_swap (p : bufferPool) (k1 d1 k2 d2 : Int) :
    (getPools p [(k1, d1), (k2, d2)]).map observe =
      (getPools p [(k2, d2), (k1, d1)]).map observe := by
  have hnegfirst : ∀ (q : bufferPool) (a da b db : Int), a < 0 →
      getPools q [(a, da), (b, db)] = none ∧ getPools q [(b, db), (a, da)] = none := by
    intro q a da b db ha
    refine ⟨by simp only [getPools, getPool_neg q a da ha], ?_⟩
    simp only [getPools]
    cases hg : getPool q b db with
    | none => rfl
    | some r =>
      obtain ⟨q1, n⟩ := r
      simp only [getPool_neg q1 a da ha]
  by_cases hn1 : k1 < 0
  · obtain ⟨ha, hb⟩ := hnegfirst p k1 d1 k2 d2 hn1
    rw [ha, hb]
  by_cases hn2 : k2 < 0
  · obtain ⟨ha, hb⟩ := hnegfirst p k2 d2 k1 d1 hn2
    rw [ha, hb]
  obtain ⟨n1, rfl⟩ := Int.eq_ofNat_of_zero_le (by omega : 0 ≤ k1)
  obtain ⟨n2, rfl⟩ := Int.eq_ofNat_of_zero_le (by omega : 0 ≤ k2)
  obtain ⟨hAn, hAs⟩ := getPools_two_view p n1 n2 d1 d2
  obtain ⟨hBn, hBs⟩ := getPools_two_view p n2 n1 d2 d1
  by_cases hA : n1 < p.countersBySize.length + (n1 + 1 - p.buffersBySize.length) ∧
      n2 < p.countersBySize.length + (n1 + 1 - p.buffersBySize.length) +
        (n2 + 1 - (p.buffersBySize.length + (n1 + 1 - p.buffersBySize.length)))
  · have hB : n2 < p.countersBySize.length + (n2 + 1 - p.buffersBySize.length) ∧
        n1 < p.countersBySize.length + (n2 + 1 - p.buffersBySize.length) +
          (n1 + 1 - (p.buffersBySize.length + (n2 + 1 - p.buffersBySize.length))) := by
      omega
    obtain ⟨pa, hpa, a1, a2, a3, a4⟩ := hAs hA
    obtain ⟨pb, hpb, b1, b2, b3, b4⟩ := hBs hB
    rw [hpa, hpb]
    simp only [Option.map_some']
    congr 1
    refine observe_eq_of_view ?_ ?_ ?_ ?_
    · rw [a1, b1]
      omega
    · rw [a2, b2]
      omega
    · intro j
      rw [a3, b3]
      omega
    · intro j
      rw [a4, b4]
      cases decide (j = n1) <;> cases decide (j = n2) <;> rfl
  · have hB : ¬ (n2 < p.countersBySize.length + (n2 + 1 - p.buffersBySize.length) ∧
        n1 < p.countersBySize.length + (n2 + 1 - p.buffersBySize.length) +
          (n1 + 1 - (p.buffersBySize.length + (n2 + 1 - p.buffersBySize.length)))) := by
      omega
    rw [hAn hA, hBn hB]

theorem getPools_perm {l1 l2 : List (Int × Int)} (h : l1.Perm l2) : ∀ (p : bufferPool),
    (getPools p l1).map observe = (getPools p l2).map observe := by
  induction h with
  | nil => intro p; rfl
  | cons x _ ih =>
    intro p
    obtain ⟨k, delta⟩ := x
    simp only [getPools]
    cases getPool p k delta with
    | none => rfl
    | some r => exact ih r.1
  | swap x y l =>
    intro p
    obtain ⟨k1, d1⟩ := x
    obtain ⟨k2, d2⟩ := y
    have hs := getPools_swap p k2 d2 k1 d1
    have hsplit : ∀ (a da b db : Int), getPools p ((a, da) :: (b, db) :: l) =
        (getPools p [(a, da), (b, db)]).bind (fun q => getPools q l) := by
      intro a da b db
      simp only [getPools]
      cases getPool p a da with
      | none => rfl
      | some r =>
        dsimp only
        cases getPool r.1 b db with
        | none => rfl
        | some r2 => rfl
    rw [hsplit, hsplit]
    cases hA : getPools p [(k2, d2), (k1, d1)] with
    | none =>
      cases hB : getPools p [(k1, d1), (k2, d2)] with
      | none => rfl
      | some qb => rw [hA, hB] at hs; cases hs
    | some qa =>
      cases hB : getPools p [(k1, d1), (k2, d2)] with
      | none => rw [hA, hB] at hs; cases hs
      | some qb =>
        rw [hA, hB] at hs
        simp only [Option.map_some', Option.some.injEq] at hs
        simp only [Option.some_bind]
        exact getPools_congr l hs
  | trans _ _ ih1 ih2 =>
    intro p
    exact (ih1 p).trans (ih2 p)

/-- C19. The effect of `getPool` on the counters and on which buckets are
present does not depend on the order of the calls.  For every pool and all
`k1`, `k2`, `delta1`, `delta2`, `getPool(k1, delta1)` then
`getPool(k2, delta2)` leaves the same counters sequence (values and length)
and the same present bucket indices as the opposite order (and panics only if
the opposite order panics); with `k1, k2 ≥ 0` on a pool whose sequences have
equal length both orders return.  Hence any two serialisations of the same
multiset of `getPool` steps end with the same counters. -/
theorem getPool_order_independent (p : bufferPool) :
    (∀ k1 d1 k2 d2 : Int, (getPools p [(k1, d1), (k2, d2)]).map observe =
      (getPools p [(k2, d2), (k1, d1)]).map observe) ∧
    (∀ k1 d1 k2 d2 : Int, 0 ≤ k1 → 0 ≤ k2 →
      p.buffersBySize.length = p.countersBySize.length →
      ∃ pa pb, getPools p [(k1, d1), (k2, d2)] = some pa ∧
        getPools p [(k2, d2), (k1, d1)] = some pb ∧
        (counters pa).1 = (counters pb).1 ∧
        ∀ j, (bucketAt pa j).isSome = (bucketAt pb j).isSome) ∧
    (∀ l1 l2 : List (Int × Int), l1.Perm l2 →
      (getPools p l1).map observe = (getPools p l2).map observe) := by
  refine ⟨getPools_swap p, ?_, fun l1 l2 h => getPools_perm h p⟩
  intro k1 d1 k2 d2 h1 h2 hlen
  obtain ⟨n1, rfl⟩ := Int.eq_ofNat_of_zero_le h1
  obtain ⟨n2, rfl⟩ := Int.eq_ofNat_of_zero_le h2
  obtain ⟨pa, hpa, _⟩ := (getPools_two_view p n1 n2 d1 d2).2 (by omega)
  obtain ⟨pb, hpb, _⟩ := (getPools_two_view p n2 n1 d2 d1).2 (by omega)
  have hs := getPools_swap p n1 d1 n2 d2
  rw [hpa, hpb] at hs
  simp only [Option.map_some', Option.some.injEq] at hs
  obtain ⟨_, _, hv, hb⟩ := view_of_observe_eq hs
  refine ⟨pa, pb, hpa, hpb, ?_, hb⟩
  rw [counters_eq, counters_eq]
  have hc : (observe pa).1 = (observe pb).1 := congrArg Prod.fst hs
  exact hc

/-- C19 for `getPool(3, 1)` and `getPool(1, -1)` on a pool with two slots. -/
theorem getPool_order_independent_witness :
    getPools ⟨[none, some ⟨1, []⟩], [0, 5]⟩ [(3, 1), (1, -1)] =
      some ⟨[none, some ⟨1, []⟩, none, some ⟨3, []⟩], [0, 4, 0, 1]⟩ ∧
    getPools ⟨[none, some ⟨1, []⟩], [0, 5]⟩ [(1, -1), (3, 1)] =
      some ⟨[none, some ⟨1, []⟩, none, some ⟨3, []⟩], [0, 4, 0, 1]⟩ ∧
    ∃ pa pb, getPools ⟨[none, some ⟨1, []⟩], [0, 5]⟩ [(3, 1), (1, -1)] = some pa ∧
      getPools ⟨[none, some ⟨1, []⟩], [0, 5]⟩ [(1, -1), (3, 1)] = some pb ∧
      (counters pa).1 = (counters pb).1 ∧
      ∀ j, (bucketAt pa j).isSome = (bucketAt pb j).isSome :=
  ⟨by decide, by decide,
    (getPool_order_independent ⟨[none, some ⟨1, []⟩], [0, 5]⟩).2.1 3 1 1 (-1) (by decide)
      (by decide) (by decide)⟩

/-! ## The counters in memory: the primitives -/

theorem arrayAt_set (h : IntHeap) (b a : Nat) (x : List Int) :
    arrayAt (h.set b x) a = if b = a then (if b < h.length then x else []) else arrayAt h a := by
  unfold arrayAt
  rw [List.getElem?_set]
  by_cases hba : b = a
  · subst hba
    by_cases hl : b < h.length
    · simp [hl]
    · simp [hl]
  · simp [hba]

theorem arrayAt_append_left (h t : IntHeap) (a : Nat) (ha : a < h.length) :
    arrayAt (h ++ t) a = arrayAt h a := by
  unfold arrayAt
  rw [List.getElem?_append_left ha]

theorem arrayAt_append_length (h : IntHeap) (x : List Int) : arrayAt (h ++ [x]) h.length = x := by
  unfold arrayAt
  rw [List.getElem?_append_right (le_refl _)]
  simp

theorem arrayAt_of_length_le (h : IntHeap) (a : Nat) (ha : h.length ≤ a) : arrayAt h a = [] := by
  unfold arrayAt
  rw [List.getElem?_eq_none ha]
  rfl

/-- An array that has elements is allocated. -/
theorem lt_length_of_arrayAt (h : IntHeap) (a : Nat) (hp : 0 < (arrayAt h a).length) :
    a < h.length := by
  by_contra hn
  rw [arrayAt_of_length_le h a (by omega)] at hp
  simp at hp

theorem IntSlice.length_read (s : IntSlice) (h : IntHeap) (hwf : s.WF h) :
    (s.read h).length = s.len := by
  unfold IntSlice.read
  rw [List.length_take, hwf.2]
  exact Nat.min_eq_left hwf.1

theorem IntSlice.load_eq (s : IntSlice) (h : IntHeap) (i : Nat) :
    s.load h i = (s.read h)[i]? := by
  unfold IntSlice.load IntSlice.read
  rw [List.getElem?_take]

theorem take_succ_set {α : Type} (l : List α) (n : Nat) (x : α) (hn : n < l.length) :
    (l.set n x).take (n + 1) = l.take n ++ [x] := by
  apply List.ext_getElem?
  intro j
  rw [List.getElem?_take, List.getElem?_set, List.getElem?_append]
  simp only [List.length_take, Nat.min_eq_left hn.le]
  by_cases hj : j < n
  · have hne : ¬ n = j := by omega
    rw [if_pos (by omega), if_neg hne, if_pos hj, List.getElem?_take, if_pos hj]
  · rw [if_neg hj]
    by_cases hjn : j = n
    · subst hjn
      simp [hn]
    · rw [if_neg (by omega)]
      have : 1 ≤ j - n := by omega
      rw [List.getElem?_eq_none (by simpa using this)]

/-- `append` in memory adds the element to what the slice reads, keeps the
header fitting its array, and leaves every array apart from the slice as it was. -/
theorem appendInt_spec (growth : Nat → Nat) (h : IntHeap) (s : IntSlice) (x : Int)
    (hwf : s.WF h) :
    (appendInt growth h s x).1.WF (appendInt growth h s x).2 ∧
    (appendInt growth h s x).1.read (appendInt growth h s x).2 = s.read h ++ [x] ∧
    ∀ a, Apart a s h → Apart a (appendInt growth h s x).1 (appendInt growth h s x).2 ∧
      arrayAt (appendInt growth h s x).2 a = arrayAt h a := by
  unfold appendInt
  by_cases hc : s.len < s.cap
  · simp only [if_pos hc]
    have hlen : s.len < (arrayAt h s.arr).length := by rw [hwf.2]; exact hc
    have harr : s.arr < h.length := lt_length_of_arrayAt h s.arr (by omega)
    have hset : arrayAt (h.set s.arr ((arrayAt h s.arr).set s.len x)) s.arr =
        (arrayAt h s.arr).set s.len x := by
      rw [arrayAt_set, if_pos rfl, if_pos harr]
    refine ⟨⟨hc, ?_⟩, ?_, ?_⟩
    · show (arrayAt (h.set s.arr ((arrayAt h s.arr).set s.len x)) s.arr).length = s.cap
      rw [hset, List.length_set, hwf.2]
    · show (arrayAt (h.set s.arr ((arrayAt h s.arr).set s.len x)) s.arr).take (s.len + 1) = _
      rw [hset, take_succ_set _ _ _ hlen]
      rfl
    · intro a ha
      have hne : s.arr ≠ a := by
        rcases ha.2 with h0 | h0
        · omega
        · exact h0
      refine ⟨⟨by rw [List.length_set]; exact ha.1, Or.inr hne⟩, ?_⟩
      rw [arrayAt_set, if_neg hne]
  · simp only [if_neg hc]
    have hrl := s.length_read h hwf
    refine ⟨⟨le_max_left _ _, ?_⟩, ?_, ?_⟩
    · show (arrayAt (h ++ [_]) h.length).length = _
      rw [arrayAt_append_length]
      simp only [List.length_append, List.length_replicate, List.length_singleton, hrl]
      omega
    · show (arrayAt (h ++ [_]) h.length).take (s.len + 1) = _
      rw [arrayAt_append_length]
      exact List.take_left' (by simp [hrl])
    · intro a ha
      have ha1 := ha.1
      refine ⟨⟨by rw [List.length_append]; exact Nat.lt_add_right _ ha.1,
        Or.inr (by show h.length ≠ a; omega)⟩, ?_⟩
      exact arrayAt_append_left h _ a ha.1

/-- A store within the length succeeds, updates what the slice reads, and leaves
every array apart from the slice as it was. -/
theorem IntSlice.store_spec (s : IntSlice) (h : IntHeap) (i : Nat) (v : Int) (hwf : s.WF h)
    (hi : i < s.len) :
    ∃ h1, s.store h i v = some h1 ∧ s.WF h1 ∧ s.read h1 = (s.read h).set i v ∧
      ∀ a, Apart a s h → Apart a s h1 ∧ arrayAt h1 a = arrayAt h a := by
  have hlen : i < (arrayAt h s.arr).length := by rw [hwf.2]; exact lt_of_lt_of_le hi hwf.1
  have harr : s.arr < h.length := lt_length_of_arrayAt h s.arr (by omega)
  have hset : arrayAt (h.set s.arr ((arrayAt h s.arr).set i v)) s.arr =
      (arrayAt h s.arr).set i v := by
    rw [arrayAt_set, if_pos rfl, if_pos harr]
  refine ⟨_, by unfold IntSlice.store; rw [if_pos hi], ⟨hwf.1, ?_⟩, ?_, ?_⟩
  · rw [hset, List.length_set, hwf.2]
  · unfold IntSlice.read
    rw [hset]
    exact List.set_take
  · intro a ha
    have hle := hwf.1
    have hne : s.arr ≠ a := by
      rcases ha.2 with h0 | h0
      · omega
      · exact h0
    refine ⟨⟨by rw [List.length_set]; exact ha.1, ha.2⟩, ?_⟩
    rw [arrayAt_set, if_neg hne]

/-! ## The counters in memory: the operations -/

theorem Keeps.refl {m : memPool} (hwf : m.countersBySize.WF m.heap) : Keeps m m :=
  ⟨hwf, fun _ ha => ⟨ha, rfl⟩⟩

theorem Keeps.trans {m m1 m2 : memPool} (h1 : Keeps m m1) (h2 : Keeps m1 m2) : Keeps m m2 := by
  refine ⟨h2.1, ?_⟩
  intro a ha
  obtain ⟨ha1, e1⟩ := h1.2 a ha
  obtain ⟨ha2, e2⟩ := h2.2 a ha1
  exact ⟨ha2, e2.trans e1⟩

/-- Replacing the buckets does not touch memory. -/
theorem Keeps.buckets {m m1 : memPool} (h : Keeps m m1) (bs : List (Option SyncPool)) :
    Keeps m { m1 with buffersBySize := bs } := h

theorem getPoolMem.loop_spec (growth : Nat → Nat) (pageCount : Int) :
    ∀ (n : Nat) (m : memPool), m.countersBySize.WF m.heap →
      Keeps m (getPoolMem.loop growth pageCount n m) ∧
      (getPoolMem.loop growth pageCount n m).view = getPool.loop pageCount n m.view := by
  intro n
  induction n with
  | zero => intro m hwf; exact ⟨Keeps.refl hwf, rfl⟩
  | succ n ih =>
    intro m hwf
    by_cases hc : (m.buffersBySize.length : Int) ≤ pageCount
    · have hcv : (m.view.buffersBySize.length : Int) ≤ pageCount := hc
      obtain ⟨hw1, hr1, hk1⟩ := appendInt_spec growth m.heap m.countersBySize 0 hwf
      rw [getPoolMem.loop, if_pos hc, getPool.loop, if_pos hcv]
      obtain ⟨hk, hv⟩ := ih ⟨m.buffersBySize ++ [none],
        (appendInt growth m.heap m.countersBySize 0).1,
        (appendInt growth m.heap m.countersBySize 0).2⟩ hw1
      refine ⟨Keeps.trans ⟨hw1, hk1⟩ hk, ?_⟩
      rw [hv]
      congr 1
      show bufferPool.mk _ _ = _
      rw [hr1]
      rfl
    · have hcv : ¬ (m.view.buffersBySize.length : Int) ≤ pageCount := hc
      rw [getPoolMem.loop, if_neg hc, getPool.loop, if_neg hcv]
      exact ⟨Keeps.refl hwf, rfl⟩

theorem getPoolMem.grow_spec (growth : Nat → Nat) (pageCount : Int) (m : memPool)
    (hwf : m.countersBySize.WF m.heap) :
    Keeps m (getPoolMem.grow growth pageCount m) ∧
    (getPoolMem.grow growth pageCount m).view = getPool.grow pageCount m.view :=
  getPoolMem.loop_spec growth pageCount _ m hwf

/-- `getPool` in memory does to the counters read out of memory what `getPool`
does to the counters as a value, panics when it does, and writes only to the
array of the counters or to new arrays. -/
theorem getPoolMem_spec (growth : Nat → Nat) (m : memPool) (pageCount delta : Int)
    (hwf : m.countersBySize.WF m.heap) :
    (getPoolMem growth m pageCount delta).map (fun r => (r.1.view, r.2)) =
      getPool m.view pageCount delta ∧
    ∀ m1 n, getPoolMem growth m pageCount delta = some (m1, n) → Keeps m m1 := by
  obtain ⟨hk, hv⟩ := getPoolMem.grow_spec growth pageCount m hwf
  unfold getPoolMem getPool
  rw [← hv]
  generalize getPoolMem.grow growth pageCount m = g at hk ⊢
  by_cases hneg : pageCount < 0
  · simp only [hneg, if_true]
    exact ⟨rfl, fun _ _ h => by cases h⟩
  · simp only [hneg, if_false]
    have hbs : g.view.buffersBySize = g.buffersBySize := rfl
    rw [hbs]
    cases hslot : g.buffersBySize[pageCount.toNat]? with
    | none => exact ⟨rfl, fun _ _ h => by cases h⟩
    | some slot =>
      dsimp only
      rw [IntSlice.load_eq]
      have hcs : g.view.countersBySize = g.countersBySize.read g.heap := rfl
      rw [hcs]
      cases hload : (g.countersBySize.read g.heap)[pageCount.toNat]? with
      | none => exact ⟨rfl, fun _ _ h => by cases h⟩
      | some c =>
        dsimp only
        have hi : pageCount.toNat < g.countersBySize.len := by
          have := (List.getElem?_eq_some.mp hload).1
          rw [g.countersBySize.length_read g.heap hk.1] at this
          exact this
        obtain ⟨h1, hst, hw1, hr1, hk1⟩ :=
          g.countersBySize.store_spec g.heap pageCount.toNat (c + delta) hk.1 hi
        rw [hst]
        dsimp only
        refine ⟨?_, ?_⟩
        · simp only [Option.map_some', memPool.view, hr1]
        · intro m1 n h
          cases h
          exact Keeps.trans hk ⟨hw1, hk1⟩

theorem AllocBufferMem_spec (growth : Nat → Nat) (pageSize : Int) (m : memPool)
    (size : uint32) (c : GetChoice) (hwf : m.countersBySize.WF m.heap) :
    (AllocBufferMem growth pageSize m size c).map (fun r => (r.1, r.2.view)) =
      AllocBuffer pageSize m.view size c ∧
    ∀ b m1, AllocBufferMem growth pageSize m size c = some (b, m1) → Keeps m m1 := by
  obtain ⟨hmap, hkeep⟩ := getPoolMem_spec growth m (AllocBuffer.pages pageSize size) 1 hwf
  unfold AllocBufferMem AllocBuffer
  rw [← hmap]
  cases hg : getPoolMem growth m (AllocBuffer.pages pageSize size) 1 with
  | none => exact ⟨rfl, fun _ _ h => by cases h⟩
  | some r =>
    obtain ⟨m1, k⟩ := r
    have hk := hkeep m1 k hg
    simp only [Option.map_some']
    have hbs : m1.view.buffersBySize = m1.buffersBySize := rfl
    rw [hbs]
    cases hslot : m1.buffersBySize[k]? with
    | none => exact ⟨rfl, fun _ _ h => by cases h⟩
    | some slot =>
      cases slot with
      | none => exact ⟨rfl, fun _ _ h => by cases h⟩
      | some sp =>
        dsimp only
        cases hget : sp.Get pageSize c with
        | none => exact ⟨rfl, fun _ _ h => by cases h⟩
        | some r1 =>
          obtain ⟨b, sp1⟩ := r1
          dsimp only
          cases hup : b.upTo (size.val : Int) with
          | none => exact ⟨rfl, fun _ _ h => by cases h⟩
          | some r2 =>
            refine ⟨rfl, ?_⟩
            intro b2 m2 h
            cases h
            exact hk.buckets _

theorem FreeBufferMem_spec (growth : Nat → Nat) (pageSize : Int) (m : memPool) (slice : Slice)
    (hwf : m.countersBySize.WF m.heap) :
    (FreeBufferMem growth pageSize m slice).map memPool.view =
      FreeBuffer pageSize m.view slice ∧
    ∀ m1, FreeBufferMem growth pageSize m slice = some m1 → Keeps m m1 := by
  unfold FreeBufferMem FreeBuffer
  by_cases hn : slice = .nil
  · simp only [hn, if_true]
    exact ⟨rfl, fun m1 h => by cases h; exact Keeps.refl hwf⟩
  · simp only [hn, if_false]
    by_cases hf : (slice.cap : Int).tmod pageSize ≠ 0 ∨ slice.cap = 0
    · simp only [hf, if_true]
      exact ⟨rfl, fun m1 h => by cases h; exact Keeps.refl hwf⟩
    · simp only [hf, if_false]
      cases hup : slice.upTo (slice.cap : Int) with
      | none => exact ⟨rfl, fun _ h => by cases h⟩
      | some s1 =>
        dsimp only
        obtain ⟨hmap, hkeep⟩ :=
          getPoolMem_spec growth m ((slice.cap : Int).tdiv pageSize) (-1) hwf
        rw [← hmap]
        cases hg : getPoolMem growth m ((slice.cap : Int).tdiv pageSize) (-1) with
        | none => exact ⟨rfl, fun _ h => by cases h⟩
        | some r =>
          obtain ⟨m1, k⟩ := r
          have hk := hkeep m1 k hg
          simp only [Option.map_some']
          have hbs : m1.view.buffersBySize = m1.buffersBySize := rfl
          rw [hbs]
          cases hslot : m1.buffersBySize[k]? with
          | none => exact ⟨rfl, fun _ h => by cases h⟩
          | some slot =>
            cases slot with
            | none => exact ⟨rfl, fun _ h => by cases h⟩
            | some sp =>
              refine ⟨rfl, ?_⟩
              intro m2 h
              cases h
              exact hk.buckets _

theorem dropItem_eq (p : bufferPool) (k i : Nat) :
    dropItem p k i = ⟨(dropItem p k i).buffersBySize, p.countersBySize⟩ := by
  have h := (length_dropItem p k i).2
  cases hq : dropItem p k i with
  | mk bs cs =>
    rw [hq] at h
    simp only at h
    rw [h]

/-- One event in memory is the event on the value read out of memory, and it
writes only to the array of the counters or to new arrays. -/
theorem stepMem_spec (growth : Nat → Nat) (pageSize : Int) (m : memPool) (op : Op)
    (hwf : m.countersBySize.WF m.heap) :
    (stepMem growth pageSize m op).map memPool.view = step pageSize m.view op ∧
    ∀ m1, stepMem growth pageSize m op = some m1 → Keeps m m1 := by
  cases op with
  | alloc size c =>
    obtain ⟨hmap, hkeep⟩ := AllocBufferMem_spec growth pageSize m size c hwf
    simp only [stepMem, step]
    rw [← hmap]
    cases hg : AllocBufferMem growth pageSize m size c with
    | none => exact ⟨rfl, fun _ h => by cases h⟩
    | some r =>
      refine ⟨rfl, ?_⟩
      intro m1 h
      cases h
      exact hkeep r.1 r.2 hg
  | free slice => exact FreeBufferMem_spec growth pageSize m slice hwf
  | drop k i =>
    refine ⟨?_, ?_⟩
    · show some _ = some _
      congr 1
      exact (dropItem_eq m.view k i).symm
    · intro m1 h
      cases h
      exact (Keeps.refl hwf).buckets _

theorem runMem_spec (growth : Nat → Nat) (pageSize : Int) (ops : List Op) :
    ∀ (m : memPool), m.countersBySize.WF m.heap →
      (runMem growth pageSize m ops).map memPool.view = run pageSize m.view ops ∧
      ∀ m1, runMem growth pageSize m ops = some m1 → Keeps m m1 := by
  induction ops with
  | nil =>
    intro m hwf
    exact ⟨rfl, fun m1 h => by cases h; exact Keeps.refl hwf⟩
  | cons op ops ih =>
    intro m hwf
    obtain ⟨hmap, hkeep⟩ := stepMem_spec growth pageSize m op hwf
    simp only [runMem, run]
    rw [← hmap]
    cases hs : stepMem growth pageSize m op with
    | none => exact ⟨rfl, fun _ h => by cases h⟩
    | some m1 =>
      have hk1 := hkeep m1 hs
      obtain ⟨hmap2, hkeep2⟩ := ih m1 hk1.1
      simp only [Option.map_some']
      exact ⟨hmap2, fun m2 h => Keeps.trans hk1 (hkeep2 m2 h)⟩

/-! ## The snapshot -/

/-- `counters` in memory: the header it returns points to a new array that
holds the counters; the pool's header, its buckets and what its counters read
are unchanged; the new array is apart from the counters, and every array that
was apart from them still is and has kept its contents. -/
theorem countersMem_spec (m : memPool) (hwf : m.countersBySize.WF m.heap) :
    (countersMem m).1.read (countersMem m).2.heap = m.countersBySize.read m.heap ∧
    (countersMem m).2.view = m.view ∧
    Keeps m (countersMem m).2 ∧
    Apart (countersMem m).1.arr (countersMem m).2.countersBySize (countersMem m).2.heap := by
  have hrl := m.countersBySize.length_read m.heap hwf
  have hnil : m.heap.length ≤ m.countersBySize.arr → m.countersBySize.cap = 0 := by
    intro hge
    have := hwf.2
    rw [arrayAt_of_length_le m.heap _ hge] at this
    exact this.symm
  have hread1 : m.countersBySize.read (m.heap ++ [List.replicate m.countersBySize.len 0]) =
      m.countersBySize.read m.heap := by
    unfold IntSlice.read
    by_cases hlt : m.countersBySize.arr < m.heap.length
    · rw [arrayAt_append_left _ _ _ hlt]
    · have hc := hnil (by omega)
      have hl : m.countersBySize.len = 0 := by have := hwf.1; omega
      rw [hl]
      rfl
  have hnew : arrayAt (countersMem m).2.heap m.heap.length = m.countersBySize.read m.heap := by
    show arrayAt (copyInts _ _ _) _ = _
    unfold copyInts makeInts
    simp only [Nat.min_self]
    rw [arrayAt_set, if_pos rfl, if_pos (by simp), arrayAt_append_length, hread1,
      List.drop_of_length_le (by simp), List.append_nil, List.take_of_length_le (by omega)]
  have hold : ∀ a, a ≠ m.heap.length → arrayAt (countersMem m).2.heap a = arrayAt m.heap a := by
    intro a ha
    show arrayAt (copyInts _ _ _) _ = _
    unfold copyInts makeInts
    rw [arrayAt_set, if_neg (fun h => ha h.symm)]
    by_cases hlt : a < m.heap.length
    · exact arrayAt_append_left _ _ _ hlt
    · rw [arrayAt_of_length_le _ _ (by simp; omega), arrayAt_of_length_le _ _ (by omega)]
  have hlen2 : (countersMem m).2.heap.length = m.heap.length + 1 := by
    show (copyInts _ _ _).length = _
    unfold copyInts makeInts
    simp
  have hview : (countersMem m).2.countersBySize.read (countersMem m).2.heap =
      m.countersBySize.read m.heap := by
    show (arrayAt (countersMem m).2.heap m.countersBySize.arr).take m.countersBySize.len =
      (arrayAt m.heap m.countersBySize.arr).take m.countersBySize.len
    by_cases he : m.countersBySize.arr = m.heap.length
    · have hc := hnil (by omega)
      have hl : m.countersBySize.len = 0 := by have := hwf.1; omega
      rw [hl]
      rfl
    · rw [hold _ he]
  refine ⟨?_, ?_, ⟨⟨hwf.1, ?_⟩, ?_⟩, ⟨?_, ?_⟩⟩
  · show (arrayAt (countersMem m).2.heap m.heap.length).take m.countersBySize.len = _
    rw [hnew, List.take_of_length_le (by omega)]
  · show bufferPool.mk _ _ = bufferPool.mk _ _
    rw [hview]
    rfl
  · show (arrayAt (countersMem m).2.heap m.countersBySize.arr).length = m.countersBySize.cap
    by_cases he : m.countersBySize.arr = m.heap.length
    · rw [he, hnew, hrl]
      have hc := hnil (by omega)
      have := hwf.1
      omega
    · rw [hold _ he]
      exact hwf.2
  · intro a ha
    have ha1 := ha.1
    exact ⟨⟨by rw [hlen2]; omega, ha.2⟩, hold a (by omega)⟩
  · show m.heap.length < (countersMem m).2.heap.length
    rw [hlen2]
    omega
  · show m.countersBySize.cap = 0 ∨ m.countersBySize.arr ≠ m.heap.length
    by_cases he : m.countersBySize.arr = m.heap.length
    · exact Or.inl (hnil (by omega))
    · exact Or.inr he

/-- What a slice apart from the counters reads is kept. -/
theorem Keeps.read_eq {m m1 : memPool} (hk : Keeps m m1) (d : IntSlice)
    (ha : Apart d.arr m.countersBySize m.heap) : d.read m1.heap = d.read m.heap := by
  unfold IntSlice.read
  rw [(hk.2 d.arr ha).2]

/-- Every pool that events produce in memory from the empty pool has a counters
header that fits its array, and is a reachable pool when read as a value. -/
theorem runMem_reachable (growth : Nat → Nat) (pageSize : Int) (ops : List Op) (m : memPool)
    (h : runMem growth pageSize memPool.empty ops = some m) :
    m.countersBySize.WF m.heap ∧ Reachable pageSize m.view := by
  have hwf0 : memPool.empty.countersBySize.WF memPool.empty.heap := ⟨le_refl _, rfl⟩
  obtain ⟨hmap, hkeep⟩ := runMem_spec growth pageSize ops memPool.empty hwf0
  refine ⟨(hkeep m h).1, ops, ?_⟩
  rw [h] at hmap
  exact hmap.symm

/-- C9. `counters()` returns a slice that reads, element for element and in
length, what the pool's counters read, and leaves the pool (buckets, counters
header, counters contents) as it was; so a second call right after returns a
slice that reads the same as the first one does at that time; and after any
later events (calls of `AllocBuffer` and `FreeBuffer`), which do change the
pool's counters, the slice returned earlier still reads the earlier values,
because it has an array of its own. -/
theorem counters_snapshot (growth : Nat → Nat) (pageSize : Int) (m : memPool) (ops : List Op)
    (h0 : 0 < pageSize) (h1 : pageSize < 9223372036854775808)
    (hwf : m.countersBySize.WF m.heap) (hr : Reachable pageSize m.view) :
    (countersMem m).1.read (countersMem m).2.heap = m.countersBySize.read m.heap ∧
    (countersMem m).1.read (countersMem m).2.heap = (counters m.view).1 ∧
    (countersMem m).1.len = m.countersBySize.len ∧
    (countersMem m).2.buffersBySize = m.buffersBySize ∧
    (countersMem m).2.countersBySize = m.countersBySize ∧
    (countersMem m).2.view = m.view ∧
    (countersMem (countersMem m).2).1.read (countersMem (countersMem m).2).2.heap =
      (countersMem m).1.read (countersMem (countersMem m).2).2.heap ∧
    ∃ m3, runMem growth pageSize (countersMem m).2 ops = some m3 ∧
      run pageSize m.view ops = some m3.view ∧
      (countersMem m).1.read m3.heap = m.countersBySize.read m.heap := by
  obtain ⟨hread, hview, hkeep, hapart⟩ := countersMem_spec m hwf
  obtain ⟨hread2, _, hkeep2, _⟩ := countersMem_spec (countersMem m).2 hkeep.1
  refine ⟨hread, ?_, rfl, rfl, rfl, hview, ?_, ?_⟩
  · rw [hread, counters_eq]
    rfl
  · rw [hread2, hkeep2.read_eq _ hapart]
    have : (countersMem m).2.countersBySize.read (countersMem m).2.heap =
        m.countersBySize.read m.heap := congrArg bufferPool.countersBySize hview
    rw [this, hread]
  · obtain ⟨p1, hrun, _⟩ := Inv.run h0 h1 ops (hr.inv h0 h1)
    obtain ⟨hmap, hk3⟩ := runMem_spec growth pageSize ops (countersMem m).2 hkeep.1
    rw [hview, hrun] at hmap
    cases hm3 : runMem growth pageSize (countersMem m).2 ops with
    | none => rw [hm3] at hmap; cases hmap
    | some m3 =>
      rw [hm3] at hmap
      simp only [Option.map_some', Option.some.injEq] at hmap
      refine ⟨m3, rfl, by rw [hrun, hmap], ?_⟩
      rw [(hk3 m3 hm3).read_eq _ hapart, hread]

/-- C9 on the pool left in memory by `alloc(100)`, `free`: the snapshot gets
array 1; a later `alloc(200)` raises counter 1 in array 0, and the snapshot
still reads `[0, 0]`. -/
theorem counters_snapshot_witness :
    (0 : Int) < 4096 ∧ (4096 : Int) < 9223372036854775808 ∧
    runMem (fun n => 2 * n) 4096 memPool.empty [.alloc 100 ⟨none, 0⟩, .free (.mk 0 100 4096)] =
      some ⟨[none, some ⟨1, [.mk 0 4096 4096]⟩], ⟨0, 2, 2⟩, [[0, 0]]⟩ ∧
    (IntSlice.mk 0 2 2).WF [[0, 0]] ∧
    Reachable 4096 (memPool.mk [none, some ⟨1, [.mk 0 4096 4096]⟩] ⟨0, 2, 2⟩ [[0, 0]]).view ∧
    countersMem ⟨[none, some ⟨1, [.mk 0 4096 4096]⟩], ⟨0, 2, 2⟩, [[0, 0]]⟩ =
      (⟨1, 2, 2⟩, ⟨[none, some ⟨1, [.mk 0 4096 4096]⟩], ⟨0, 2, 2⟩, [[0, 0], [0, 0]]⟩) ∧
    runMem (fun n => 2 * n) 4096
        ⟨[none, some ⟨1, [.mk 0 4096 4096]⟩], ⟨0, 2, 2⟩, [[0, 0], [0, 0]]⟩
        [.alloc 200 ⟨some 0, 1⟩] =
      some ⟨[none, some ⟨1, []⟩], ⟨0, 2, 2⟩, [[0, 1], [0, 0]]⟩ ∧
    ∃ m3, runMem (fun n => 2 * n) 4096
        (countersMem ⟨[none, some ⟨1, [.mk 0 4096 4096]⟩], ⟨0, 2, 2⟩, [[0, 0]]⟩).2
        [.alloc 200 ⟨some 0, 1⟩] = some m3 ∧
      run 4096 (memPool.mk [none, some ⟨1, [.mk 0 4096 4096]⟩] ⟨0, 2, 2⟩ [[0, 0]]).view
        [.alloc 200 ⟨some 0, 1⟩] = some m3.view ∧
      (countersMem ⟨[none, some ⟨1, [.mk 0 4096 4096]⟩], ⟨0, 2, 2⟩, [[0, 0]]⟩).1.read m3.heap =
        (IntSlice.mk 0 2 2).read [[0, 0]] :=
  ⟨by decide, by decide, by decide, ⟨by decide, by decide⟩,
    ⟨[.alloc 100 ⟨none, 0⟩, .free (.mk 0 100 4096)], by decide⟩, by decide, by decide,
    (counters_snapshot (fun n => 2 * n) 4096
      ⟨[none, some ⟨1, [.mk 0 4096 4096]⟩], ⟨0, 2, 2⟩, [[0, 0]]⟩ [.alloc 200 ⟨some 0, 1⟩]
      (by decide) (by decide) ⟨by decide, by decide⟩
      ⟨[.alloc 100 ⟨none, 0⟩, .free (.mk 0 100 4096)], by decide⟩).2.2.2.2.2.2.2⟩

end fuse
